import Mathlib

/-!
Verification development for the map-chat repository.

This file shallowly embeds the core TypeScript modules of the repository
(`src/lib/commandParser.ts`, `src/lib/services/map.ts`, the layer store in
`src/lib/services/throttle.ts`, `src/lib/services/cache.ts`,
`src/lib/hooks/useMapCache.ts`, the history hook, `SpatialService`,
`src/lib/services/cluster.ts` and the geometry/geo utilities) as executable
Lean definitions, and proves the specification claims about them.

Modelling conventions:
* JavaScript numbers are idealised as exact rationals (`ℚ`); `NaN` and the
  infinities are represented explicitly by the `JsNum` type where the code
  can produce them (`parseFloat` / `parseInt`).
* A JavaScript value that may be `undefined` is modelled as an `Option`.
* Host-library functions (`JSON.parse`, `parseFloat`, `parseInt`,
  `String.prototype.trim`, `String.prototype.split`) are modelled by
  executable Lean functions following the ECMAScript behaviour on the
  fragments the repository exercises.
* Code that can throw is modelled with `Option`/`Except`; a `try`/`catch`
  in the source becomes a `match` on that value.
-/

namespace MapChat

/-- JavaScript whitespace as used by `trim`, `parseFloat`, `parseInt` and the
regex class `\s` (ASCII part; the exotic Unicode space code points, which the
repository never produces, are not modelled). -/
def isJsSpace (c : Char) : Bool :=
  c = ' ' || c = '\t' || c = '\n' || c = '\r' || c = '\x0b' || c = '\x0c'

/-- The regex class `\w` (`[A-Za-z0-9_]`) used by the directive regex. -/
def isWordChar (c : Char) : Bool :=
  c.isAlpha || c.isDigit || c = '_'

/-- `String.prototype.trim`: strip JS whitespace from both ends. -/
def jsTrim (s : String) : String :=
  String.mk (((s.data.dropWhile isJsSpace).reverse.dropWhile isJsSpace).reverse)

/-- `String.prototype.split(' ')`: split on every single space character,
keeping empty pieces (ECMAScript behaviour). -/
def splitOnSpace : List Char → List (List Char)
  | [] => [[]]
  | c :: rest =>
    if c = ' ' then [] :: splitOnSpace rest
    else
      match splitOnSpace rest with
      | [] => [[c]]
      | p :: ps => (c :: p) :: ps

/-- A JavaScript number as produced by `parseFloat`/`parseInt`:
either NaN, a signed infinity, or a finite value idealised as a rational. -/
inductive JsNum where
  | nan
  | inf (positive : Bool)
  | num (q : ℚ)
  deriving DecidableEq, Repr

/-- Numeric value of a list of decimal digit characters. -/
def digitsVal (ds : List Char) : ℕ :=
  ds.foldl (fun a c => a * 10 + (c.toNat - '0'.toNat)) 0

/-- The exact rational `±(I + F / 10^f) · 10^e` built with `mkRat` only
(`Rat.mul`/`Rat.div` are irreducible and would block kernel evaluation). -/
def decToRat (neg : Bool) (I F f : ℕ) (e : ℤ) : ℚ :=
  let m : ℤ := Int.ofNat (I * 10 ^ f + F)
  let m : ℤ := if neg then -m else m
  match e with
  | .ofNat k => mkRat (m * (Int.ofNat (10 ^ k))) (10 ^ f)
  | .negSucc k => mkRat m (10 ^ f * 10 ^ (k + 1))

/-- Decimal-literal part of ECMAScript `parseFloat` after the optional sign:
`digits ['.' digits] [('e'|'E') ['+'|'-'] digits]`, longest valid prefix;
`none` when not even one digit is present. -/
def parseFloatAfterSign (neg : Bool) (cs : List Char) : Option ℚ :=
  let intDs := cs.takeWhile Char.isDigit
  let rest₁ := cs.drop intDs.length
  let fracDs :=
    match rest₁ with
    | '.' :: r => r.takeWhile Char.isDigit
    | _ => []
  let rest₂ :=
    match rest₁ with
    | '.' :: r => r.drop (r.takeWhile Char.isDigit).length
    | _ => rest₁
  if intDs = [] ∧ fracDs = [] then none
  else
    let e : ℤ :=
      match rest₂ with
      | 'e' :: '+' :: r₂ => (digitsVal (r₂.takeWhile Char.isDigit) : ℤ)
      | 'e' :: '-' :: r₂ => -(digitsVal (r₂.takeWhile Char.isDigit) : ℤ)
      | 'e' :: r₂ => (digitsVal (r₂.takeWhile Char.isDigit) : ℤ)
      | 'E' :: '+' :: r₂ => (digitsVal (r₂.takeWhile Char.isDigit) : ℤ)
      | 'E' :: '-' :: r₂ => -(digitsVal (r₂.takeWhile Char.isDigit) : ℤ)
      | 'E' :: r₂ => (digitsVal (r₂.takeWhile Char.isDigit) : ℤ)
      | _ => 0
    some (decToRat neg (digitsVal intDs) (digitsVal fracDs) fracDs.length e)

/-- ECMAScript `parseFloat` on a string: skip whitespace, optional sign,
`Infinity` or a decimal literal prefix; `NaN` when no prefix parses. -/
def parseFloatJS (s : String) : JsNum :=
  let cs := s.data.dropWhile isJsSpace
  let (neg, r) :=
    match cs with
    | '-' :: r => (true, r)
    | '+' :: r => (false, r)
    | r => (false, r)
  if r.take 8 = "Infinity".data then .inf (!neg)
  else
    match parseFloatAfterSign neg r with
    | none => .nan
    | some q => .num q

def isHexDigitJS (c : Char) : Bool :=
  c.isDigit || ('a' ≤ c ∧ c ≤ 'f') || ('A' ≤ c ∧ c ≤ 'F')

def hexDigitVal (c : Char) : ℕ :=
  if c.isDigit then c.toNat - '0'.toNat
  else if 'a' ≤ c ∧ c ≤ 'f' then c.toNat - 'a'.toNat + 10
  else c.toNat - 'A'.toNat + 10

def hexVal (ds : List Char) : ℕ :=
  ds.foldl (fun a c => a * 16 + hexDigitVal c) 0

/-- ECMAScript `parseInt(s)` with no radix argument: skip whitespace,
optional sign, optional `0x`/`0X` hex prefix, then the longest digit run;
`NaN` when there is no digit. -/
def parseIntJS (s : String) : JsNum :=
  let cs := s.data.dropWhile isJsSpace
  let (neg, r) :=
    match cs with
    | '-' :: r => (true, r)
    | '+' :: r => (false, r)
    | r => (false, r)
  match r with
  | '0' :: x :: r₂ =>
    if x = 'x' ∨ x = 'X' then
      let hs := r₂.takeWhile isHexDigitJS
      if hs = [] then .nan
      else .num (if neg then -(hexVal hs : ℚ) else (hexVal hs : ℚ))
    else
      let ds := ('0' :: x :: r₂).takeWhile Char.isDigit
      if ds = [] then .nan
      else .num (if neg then -(digitsVal ds : ℚ) else (digitsVal ds : ℚ))
  | r =>
    let ds := r.takeWhile Char.isDigit
    if ds = [] then .nan
    else .num (if neg then -(digitsVal ds : ℚ) else (digitsVal ds : ℚ))

/-- JSON values as produced by `JSON.parse`.  Object fields are kept in
textual order (the repository never relies on duplicate keys). -/
inductive Json where
  | null
  | bool (b : Bool)
  | num (q : ℚ)
  | str (s : String)
  | arr (elems : List Json)
  | obj (fields : List (String × Json))

/-- JSON insignificant whitespace. -/
def jsonWs (c : Char) : Bool :=
  c = ' ' || c = '\t' || c = '\n' || c = '\r'

/-- JSON string body parser (after the opening quote), fuel-structural.
Returns the decoded string and the remaining input after the closing quote. -/
def pjString : ℕ → List Char → List Char → Option (String × List Char)
  | 0, _, _ => none
  | fuel + 1, acc, cs =>
    match cs with
    | [] => none
    | '"' :: r => some (String.mk acc.reverse, r)
    | '\\' :: e :: r =>
      match e with
      | '"' => pjString fuel ('"' :: acc) r
      | '\\' => pjString fuel ('\\' :: acc) r
      | '/' => pjString fuel ('/' :: acc) r
      | 'b' => pjString fuel ('\x08' :: acc) r
      | 'f' => pjString fuel ('\x0c' :: acc) r
      | 'n' => pjString fuel ('\n' :: acc) r
      | 'r' => pjString fuel ('\r' :: acc) r
      | 't' => pjString fuel ('\t' :: acc) r
      | 'u' =>
        match r with
        | h1 :: h2 :: h3 :: h4 :: r₂ =>
          if isHexDigitJS h1 ∧ isHexDigitJS h2 ∧ isHexDigitJS h3 ∧ isHexDigitJS h4 then
            pjString fuel (Char.ofNat (hexVal [h1, h2, h3, h4]) :: acc) r₂
          else none
        | _ => none
      | _ => none
    | c :: r => if c.toNat < 0x20 then none else pjString fuel (c :: acc) r

/-- Strict JSON number grammar:
`-? (0 | [1-9] digits*) ('.' digits+)? (('e'|'E') ('+'|'-')? digits+)?`. -/
def parseJsonNumber (cs : List Char) : Option (ℚ × List Char) :=
  let (neg, r) :=
    match cs with
    | '-' :: r => (true, r)
    | r => (false, r)
  let intDs := r.takeWhile Char.isDigit
  let r₁ := r.drop intDs.length
  if intDs = [] then none
  else if intDs.length > 1 ∧ intDs.headD '0' = '0' then none
  else
    let step₂ : Option (List Char × List Char) :=
      match r₁ with
      | '.' :: rr =>
        let fds := rr.takeWhile Char.isDigit
        if fds = [] then none else some (fds, rr.drop fds.length)
      | _ => some ([], r₁)
    match step₂ with
    | none => none
    | some (fracDs, r₂) =>
      let step₃ : Option (ℤ × List Char) :=
        match r₂ with
        | 'e' :: '+' :: r₃ =>
          let eds := r₃.takeWhile Char.isDigit
          if eds = [] then none else some ((digitsVal eds : ℤ), r₃.drop eds.length)
        | 'e' :: '-' :: r₃ =>
          let eds := r₃.takeWhile Char.isDigit
          if eds = [] then none else some (-(digitsVal eds : ℤ), r₃.drop eds.length)
        | 'e' :: r₃ =>
          let eds := r₃.takeWhile Char.isDigit
          if eds = [] then none else some ((digitsVal eds : ℤ), r₃.drop eds.length)
        | 'E' :: '+' :: r₃ =>
          let eds := r₃.takeWhile Char.isDigit
          if eds = [] then none else some ((digitsVal eds : ℤ), r₃.drop eds.length)
        | 'E' :: '-' :: r₃ =>
          let eds := r₃.takeWhile Char.isDigit
          if eds = [] then none else some (-(digitsVal eds : ℤ), r₃.drop eds.length)
        | 'E' :: r₃ =>
          let eds := r₃.takeWhile Char.isDigit
          if eds = [] then none else some ((digitsVal eds : ℤ), r₃.drop eds.length)
        | _ => some (0, r₂)
      match step₃ with
      | none => none
      | some (e, r₃) =>
        some (decToRat neg (digitsVal intDs) (digitsVal fracDs) fracDs.length e, r₃)

/-- Work items for the defunctionalised JSON parser (a single fuel-structural
function instead of a mutual block, so that all reductions go through the
kernel). -/
inductive PJob where
  | value (cs : List Char)
  | arrItems (cs : List Char) (acc : List Json)
  | objItems (cs : List Char) (acc : List (String × Json))

inductive PRes where
  | value (j : Json) (rest : List Char)
  | items (js : List Json) (rest : List Char)
  | fields (fs : List (String × Json)) (rest : List Char)

/-- Recursive-descent JSON parser.  `pj fuel (PJob.value cs)` parses one JSON
value from `cs`.  Every two recursive steps consume at least one input
character, so `2 * |input| + 4` fuel always suffices. -/
def pj : ℕ → PJob → Option PRes
  | 0, _ => none
  | fuel + 1, .value cs₀ =>
    let cs := cs₀.dropWhile jsonWs
    match cs with
    | '{' :: r =>
      let r₁ := r.dropWhile jsonWs
      match r₁ with
      | '}' :: r₂ => some (.value (.obj []) r₂)
      | _ =>
        match pj fuel (.objItems r₁ []) with
        | some (.fields fs rest) => some (.value (.obj fs) rest)
        | _ => none
    | '[' :: r =>
      let r₁ := r.dropWhile jsonWs
      match r₁ with
      | ']' :: r₂ => some (.value (.arr []) r₂)
      | _ =>
        match pj fuel (.arrItems r₁ []) with
        | some (.items js rest) => some (.value (.arr js) rest)
        | _ => none
    | '"' :: r =>
      match pjString (r.length + 1) [] r with
      | some (s, rest) => some (.value (.str s) rest)
      | none => none
    | 't' :: r => if r.take 3 = "rue".data then some (.value (.bool true) (r.drop 3)) else none
    | 'f' :: r => if r.take 4 = "alse".data then some (.value (.bool false) (r.drop 4)) else none
    | 'n' :: r => if r.take 3 = "ull".data then some (.value .null (r.drop 3)) else none
    | _ =>
      match parseJsonNumber cs with
      | some (q, rest) => some (.value (.num q) rest)
      | none => none
  | fuel + 1, .arrItems cs acc =>
    match pj fuel (.value cs) with
    | some (.value j rest) =>
      let rest₁ := rest.dropWhile jsonWs
      match rest₁ with
      | ',' :: r₂ => pj fuel (.arrItems r₂ (acc ++ [j]))
      | ']' :: r₂ => some (.items (acc ++ [j]) r₂)
      | _ => none
    | _ => none
  | fuel + 1, .objItems cs acc =>
    let cs₁ := cs.dropWhile jsonWs
    match cs₁ with
    | '"' :: r =>
      match pjString (r.length + 1) [] r with
      | some (k, rest) =>
        let rest₁ := rest.dropWhile jsonWs
        match rest₁ with
        | ':' :: r₂ =>
          match pj fuel (.value r₂) with
          | some (.value v rest₂) =>
            let rest₃ := rest₂.dropWhile jsonWs
            match rest₃ with
            | ',' :: r₃ => pj fuel (.objItems r₃ (acc ++ [(k, v)]))
            | '}' :: r₃ => some (.fields (acc ++ [(k, v)]) r₃)
            | _ => none
          | _ => none
        | _ => none
      | none => none
    | _ => none

/-- Model of `JSON.parse`: `none` when the host function would throw a
`SyntaxError`. -/
def jsonParse (s : String) : Option Json :=
  match pj (2 * s.data.length + 4) (.value s.data) with
  | some (.value j rest) => if rest.dropWhile jsonWs = [] then some j else none
  | _ => none

/-! ### Command grammar and parser (`src/lib/commandParser.ts`) -/

/-- Result of matching the directive regex `\[([\w_]+)(?:\s+([^\]]+))?\]`
anchored at the head of the input: the command name, the optional argument
capture, and the input remaining after the match.

The regex is deterministic here: backtracking inside `([\w_]+)` can never
succeed (a shortened name leaves a word character where whitespace or `]`
is required), and the `\s+`/`[^\]]+` boundary only shifts when the span
before the closing `]` is all whitespace. -/
def isNotCloseBracket (c : Char) : Bool :=
  c ≠ ']'

def matchDirectiveAt : List Char → Option (String × Option String × List Char)
  | [] => none
  | c :: cs =>
    if c = '[' then
      let w := cs.takeWhile isWordChar
      if w = [] then none
      else
        let cs₂ := cs.drop w.length
        match cs₂ with
        | [] => none
        | d :: _ =>
          if isJsSpace d then
            -- optional group `(?:\s+([^\]]+))?` attempted: the captured span
            -- runs to the first `]`
            let M := cs₂.takeWhile isNotCloseBracket
            let rest₂ := cs₂.drop M.length
            match rest₂ with
            | ']' :: rest₃ =>
              if M.length ≥ 2 then
                let k := (M.takeWhile isJsSpace).length
                let sLen := if k < M.length then k else M.length - 1
                some (String.mk w, some (String.mk (M.drop sLen)), rest₃)
              else none
            | _ => none
          else if d = ']' then
            some (String.mk w, none, cs₂.drop 1)
          else none
    else none

/-- Repeated `COMMAND_REGEX.exec` scanning: find the leftmost match, emit it,
continue after it (fuel-structural; fuel = input length suffices because every
match consumes at least one character). -/
def scanDirectives : ℕ → List Char → List (String × Option String)
  | 0, _ => []
  | _, [] => []
  | fuel + 1, c :: cs =>
    match matchDirectiveAt (c :: cs) with
    | some (ty, argsStr, rest) => (ty, argsStr) :: scanDirectives fuel rest
    | none => scanDirectives fuel cs

/-- `isValidCommandType` from `commandParser.ts`. -/
def isValidCommandType (t : String) : Bool :=
  t = "zoom_to" || t = "add_feature" || t = "modify_feature" ||
  t = "remove_feature" || t = "style_feature" || t = "measure" || t = "buffer"

structure ParsedCommand where
  type : String
  args : List String
  deriving DecidableEq

/-- `argsStr ? argsStr.split(' ').map(arg => arg.trim()) : []`
(`argsStr` may be `undefined` when the optional regex group did not match;
the empty string is falsy). -/
def splitArgs : Option String → List String
  | none => []
  | some s =>
    if s = "" then []
    else (splitOnSpace s.data).map (fun cs => jsTrim (String.mk cs))

/-- `parseMapCommands` from `commandParser.ts`. -/
def parseMapCommands (text : String) : List ParsedCommand :=
  (scanDirectives text.data.length text.data).filterMap (fun p =>
    if isValidCommandType p.1 then some ⟨p.1, splitArgs p.2⟩ else none)

/-- The typed command values (`MapCommand` in `src/lib/types.ts`), with the
parameter shapes produced by `convertToMapCommand`.  `Option` models values
that may be `undefined` in the source. -/
inductive MapCommand where
  | zoom_to (coordinates : JsNum × JsNum) (zoom : Option JsNum)
  | add_feature (feature : Json) (layerId : Option String)
  | modify_feature (featureId : Option String) (properties : Json)
  | remove_feature (featureId : Option String) (layerId : Option String)
  | style_feature (featureId : Option String) (style : Json)
  | measure (measureType : Option String) (features : List Json)
  | buffer (feature : Json) (distance : JsNum) (units : Option String)

/-- `parseFloat` applied to a possibly-`undefined` string:
`parseFloat(undefined)` coerces to `"undefined"` and yields `NaN`. -/
def parseFloatOpt : Option String → JsNum
  | none => .nan
  | some s => parseFloatJS s

/-- `JSON.parse` applied to a possibly-`undefined` string: throws on
`undefined`. -/
def jsonParseOpt : Option String → Option Json
  | none => none
  | some s => jsonParse s

/-- JS truthiness of a string-or-`undefined` value. -/
def jsTruthy : Option String → Bool
  | none => false
  | some s => s ≠ ""

/-- `convertToMapCommand` from `commandParser.ts`.  The `try`/`catch`
surrounding the `switch` means any `JSON.parse` failure yields `null`
(`none`); `parseFloat`/`parseInt` never throw, they produce `NaN`. -/
def convertToMapCommand (p : ParsedCommand) : Option MapCommand :=
  if p.type = "zoom_to" then
    let lat := p.args.get? 0
    let lon := p.args.get? 1
    let zoom := p.args.get? 2
    some (.zoom_to (parseFloatOpt lat, parseFloatOpt lon)
      (if jsTruthy zoom then some (parseIntJS (zoom.getD "")) else none))
  else if p.type = "add_feature" then
    (jsonParseOpt (p.args.get? 0)).map (fun j => .add_feature j (p.args.get? 1))
  else if p.type = "modify_feature" then
    (jsonParseOpt (p.args.get? 1)).map (fun j => .modify_feature (p.args.get? 0) j)
  else if p.type = "remove_feature" then
    some (.remove_feature (p.args.get? 0) (p.args.get? 1))
  else if p.type = "style_feature" then
    (jsonParseOpt (p.args.get? 1)).map (fun j => .style_feature (p.args.get? 0) j)
  else if p.type = "measure" then
    ((p.args.drop 1).mapM jsonParse).map (fun js => .measure (p.args.get? 0) js)
  else if p.type = "buffer" then
    (jsonParseOpt (p.args.get? 0)).map (fun j =>
      .buffer j (parseFloatOpt (p.args.get? 1)) (p.args.get? 2))
  else none

/-- `extractMapCommands` from `commandParser.ts`: convert every parsed
directive and keep the non-`null` results. -/
def extractMapCommands (text : String) : List MapCommand :=
  (parseMapCommands text).filterMap convertToMapCommand

/-! ### Command executor (`src/lib/services/map.ts`)

The map-surface capability object is a record of functions over an abstract
surface state `σ`.  A method returns the updated state together with
`Except String Unit` (or a result); `Except.error` models a thrown exception.
State changes made before a throw persist, as they do in JavaScript. -/

structure MapMethods (σ : Type) where
  zoomTo : (JsNum × JsNum) → Option JsNum → σ → σ × Except String Unit
  addFeature : Json → Option String → Option Json → σ → σ × Except String Unit
  modifyFeature : Option String → Json → σ → σ × Except String Unit
  removeFeature : Option String → Option String → σ → σ × Except String Unit
  styleFeature : Option String → Json → σ → σ × Except String Unit
  measure : Option String → List Json → σ → σ × Except String JsNum
  buffer : Json → JsNum → Option String → σ → σ × Except String Json

/-- One iteration of the `commands.forEach` loop in
`MapService.executeMapCommands`: dispatch the command against the capability
object inside its own `try`/`catch`; a thrown error is logged and swallowed.
For `add_feature` the parser never sets a `style` parameter, so the executor
reads `undefined` (`none`) there.  The `buffer` result is chained into
`addFeature(buffered, 'buffers')`. -/
def execOne {σ : Type} (m : MapMethods σ) (s : σ) (cmd : MapCommand) : σ :=
  match cmd with
  | .zoom_to coordinates zoom => (m.zoomTo coordinates zoom s).1
  | .add_feature feature layerId => (m.addFeature feature layerId none s).1
  | .modify_feature featureId properties => (m.modifyFeature featureId properties s).1
  | .remove_feature featureId layerId => (m.removeFeature featureId layerId s).1
  | .style_feature featureId style => (m.styleFeature featureId style s).1
  | .measure t features => (m.measure t features s).1
  | .buffer feature distance units =>
    let (s₁, r) := m.buffer feature distance units s
    match r with
    | .error _ => s₁
    | .ok buffered => (m.addFeature buffered (some "buffers") none s₁).1

/-- `MapService.executeMapCommands`: extract the commands, run each in its own
failure boundary, and return the input text unchanged. -/
def executeMapCommands {σ : Type} (m : MapMethods σ) (text : String) (s : σ) :
    σ × String :=
  ((extractMapCommands text).foldl (execOne m) s, text)

/-! ### Feature model and geo utilities
(`src/lib/types.ts`, `src/lib/utils/geo.ts`, `src/lib/utils/geometry.ts`) -/

/-- `FeatureId = string | number`. -/
inductive FeatureId where
  | str (s : String)
  | num (q : ℚ)
  deriving DecidableEq

/-- GeoJSON geometry, with the coordinate shapes the repository manipulates
spelled out for `Point`, `LineString` and `Polygon`; other geometry kinds are
represented by their type tag. -/
inductive Geometry where
  | point (coordinates : List ℚ)
  | lineString (coordinates : List (List ℚ))
  | polygon (coordinates : List (List (List ℚ)))
  | otherGeom (typeTag : String)

/-- The value of `geometry.type`. -/
def Geometry.typeName : Geometry → String
  | .point _ => "Point"
  | .lineString _ => "LineString"
  | .polygon _ => "Polygon"
  | .otherGeom t => t

/-- A GeoJSON `Feature` as consumed from outside: `properties` may be null
and `id` may be absent. -/
structure Feature where
  id : Option FeatureId
  geometry : Geometry
  properties : Option (List (String × Json))

/-- `GeoJSONFeature` from `src/lib/types.ts`: `properties` is always an
object. -/
structure GeoFeature where
  id : Option FeatureId
  geometry : Geometry
  properties : List (String × Json)

/-- JS falsiness of a feature id (`undefined`, `''` and `0` are falsy). -/
def idFalsy : Option FeatureId → Bool
  | none => true
  | some (.str s) => s = ""
  | some (.num q) => q = 0

/-- `ensureFeatureProperties` from `geo.ts`: `properties || {}`. -/
def ensureFeatureProperties (p : Option (List (String × Json))) :
    List (String × Json) :=
  p.getD []

/-- `toGeoJSONFeature` from `geo.ts`. -/
def toGeoJSONFeature (f : Feature) : GeoFeature :=
  { id := f.id, geometry := f.geometry,
    properties := ensureFeatureProperties f.properties }

/-- `fromGeoJSONFeature` from `geo.ts`: the spread
`...(feature.id && { id: feature.id })` drops a falsy id. -/
def fromGeoJSONFeature (g : GeoFeature) : Feature :=
  { id := if idFalsy g.id then none else g.id,
    geometry := g.geometry, properties := some g.properties }

/-- `isEditableFeature` from `src/lib/utils/geometry.ts`. -/
def isEditableFeature (f : GeoFeature) : Bool :=
  f.geometry.typeName = "LineString" || f.geometry.typeName = "Polygon"

/-! ### Feature/Layer store (`LayerService` in `src/lib/services/throttle.ts`) -/

/-- `Layer` from `src/lib/types.ts`. -/
structure Layer where
  id : String
  name : String
  layerType : String
  visible : Bool
  features : List GeoFeature
  style : Option Json

/-- `LayerGroup`. -/
structure LayerGroup where
  id : String
  name : String
  layers : List Layer
  visible : Bool

/-- The slice of `MapState` the store operations touch. -/
structure MapState where
  center : ℚ × ℚ
  zoom : ℚ
  layers : List LayerGroup

/-- `LayerService` state.  `uuidv4()` is modelled as a deterministic injective
fresh-id supply (`uuidGen` applied to a counter): the collision-resistant
random generator is idealised as collision-free. -/
structure LayerServiceState where
  state : MapState
  nextUuid : ℕ

/-- The fresh-id supply standing in for `uuidv4()`.  Injective, and never
produces a falsy (empty) string. -/
def uuidGen (n : ℕ) : String :=
  String.mk (List.replicate (n + 1) 'u')

/-- `group.layers.find(l => l.id === layerId)` followed by the push onto the
found layer's `features`: returns the updated layer list, or `none` when no
layer in the list matches. -/
def addFeatureInLayers (g : GeoFeature) (layerId : String) :
    List Layer → Option (List Layer)
  | [] => none
  | l :: ls =>
    if l.id = layerId then
      some ({ l with features := l.features ++ [g] } :: ls)
    else
      (addFeatureInLayers g layerId ls).map (l :: ·)

/-- The `for (const group of this.state.layers)` search in
`addFeatureToLayer`. -/
def addFeatureInGroups (g : GeoFeature) (layerId : String) :
    List LayerGroup → Option (List LayerGroup)
  | [] => none
  | gr :: grs =>
    match addFeatureInLayers g layerId gr.layers with
    | some ls => some ({ gr with layers := ls } :: grs)
    | none => (addFeatureInGroups g layerId grs).map (gr :: ·)

/-- `LayerService.addFeatureToLayer`: normalise the feature, assign a fresh
id when the current one is falsy, and append it to the first layer whose id
matches; `false` when no layer matches. -/
def addFeatureToLayer (layerId : String) (f : Feature)
    (st : LayerServiceState) : LayerServiceState × Bool :=
  let gjf := toGeoJSONFeature f
  let (gjf, next) :=
    if idFalsy gjf.id then
      ({ gjf with id := some (.str (uuidGen st.nextUuid)) }, st.nextUuid + 1)
    else (gjf, st.nextUuid)
  match addFeatureInGroups gjf layerId st.state.layers with
  | some groups =>
    ({ state := { st.state with layers := groups }, nextUuid := next }, true)
  | none => (st, false)

/-- `layers.find(l => l.id === layerId)` over one group's layer list. -/
def getLayerInLayers (layerId : String) : List Layer → Option Layer
  | [] => none
  | l :: ls => if l.id = layerId then some l else getLayerInLayers layerId ls

/-- The group loop of `LayerService.getLayerById`: return the first layer
with a matching id, scanning groups in order. -/
def getLayerInGroups (layerId : String) : List LayerGroup → Option Layer
  | [] => none
  | gr :: grs =>
    match getLayerInLayers layerId gr.layers with
    | some l => some l
    | none => getLayerInGroups layerId grs

/-- `LayerService.getLayerById`. -/
def getLayerById (layerId : String) (ms : MapState) : Option Layer :=
  getLayerInGroups layerId ms.layers

/-! ### Cache layer (`src/lib/services/cache.ts`)

The `Map<string, CacheEntry>` is modelled as an association list with
JavaScript `Map` semantics (update in place preserves order, insertion
appends).  `Date.now()` becomes an explicit integer-millisecond clock
argument. -/

structure CacheEntry (α : Type) where
  value : α
  timestamp : ℤ
  ttl : ℤ
  hits : ℕ
  lastAccess : ℤ

structure CacheConfig where
  defaultTTL : ℤ
  maxSize : ℕ
  cleanupInterval : ℤ

/-- `DEFAULT_CONFIG` of the cache. -/
def cacheDefaultConfig : CacheConfig :=
  { defaultTTL := 5 * 60 * 1000, maxSize := 1000, cleanupInterval := 60 * 1000 }

abbrev CacheMap (α : Type) := List (String × CacheEntry α)

def mapFind {α : Type} (key : String) : CacheMap α → Option (CacheEntry α)
  | [] => none
  | (k, e) :: rest => if k = key then some e else mapFind key rest

/-- JS `Map.set`: overwrite in place when the key exists, append otherwise. -/
def mapSet {α : Type} (key : String) (e : CacheEntry α) : CacheMap α → CacheMap α
  | [] => [(key, e)]
  | (k, e') :: rest =>
    if k = key then (k, e) :: rest else (k, e') :: mapSet key e rest

/-- JS `Map.delete`. -/
def mapDelete {α : Type} (key : String) : CacheMap α → CacheMap α
  | [] => []
  | (k, e) :: rest => if k = key then rest else (k, e) :: mapDelete key rest

/-- `CacheService.isExpired`. -/
def isExpired {α : Type} (e : CacheEntry α) (now : ℤ) : Bool :=
  now - e.timestamp > e.ttl

/-- Stable insertion used to model the JS stable `Array.sort` by
`lastAccess` (ascending) in the cleanup pass. -/
def insertByAccess {α : Type} (p : String × CacheEntry α) :
    CacheMap α → CacheMap α
  | [] => [p]
  | q :: qs =>
    if q.2.lastAccess ≤ p.2.lastAccess then q :: insertByAccess p qs
    else p :: q :: qs

def sortByAccess {α : Type} : CacheMap α → CacheMap α
  | [] => []
  | p :: ps => insertByAccess p (sortByAccess ps)

/-- `CacheService.cleanup`: drop expired entries, then evict the
least-recently-accessed entries while over capacity. -/
def cacheCleanup {α : Type} (cfg : CacheConfig) (now : ℤ) (c : CacheMap α) :
    CacheMap α :=
  let c₁ := c.filter (fun p => !isExpired p.2 now)
  if c₁.length > cfg.maxSize then
    let victims := (sortByAccess c₁).take (c₁.length - cfg.maxSize)
    c₁.filter (fun p => !(victims.map Prod.fst).contains p.1)
  else c₁

/-- `CacheService.set`: cleanup first when at capacity, then store with
`ttl || defaultTTL` (a zero ttl is falsy and falls back to the default). -/
def cacheSet {α : Type} (cfg : CacheConfig) (now : ℤ) (key : String) (v : α)
    (ttl : Option ℤ) (c : CacheMap α) : CacheMap α :=
  let c₁ := if c.length ≥ cfg.maxSize then cacheCleanup cfg now c else c
  let t :=
    match ttl with
    | some t => if t = 0 then cfg.defaultTTL else t
    | none => cfg.defaultTTL
  mapSet key { value := v, timestamp := now, ttl := t, hits := 0,
               lastAccess := now } c₁

/-- `CacheService.get`: `null` on a missing or expired entry (the read that
discovers an expired entry deletes it); a hit bumps `hits` and
`lastAccess`. -/
def cacheGet {α : Type} (now : ℤ) (key : String) (c : CacheMap α) :
    Option α × CacheMap α :=
  match mapFind key c with
  | none => (none, c)
  | some e =>
    if isExpired e now then (none, mapDelete key c)
    else
      (some e.value,
       mapSet key { e with hits := e.hits + 1, lastAccess := now } c)

/-! ### Cache key generation (`generateKey` in `src/lib/hooks/useMapCache.ts`) -/

/-- Integer printing for the stringify model. -/
def intRepr (n : ℤ) : String :=
  match n with
  | .ofNat k => Nat.repr k
  | .negSucc k => "-" ++ Nat.repr (k + 1)

/-- Printing of the idealised rational number (JS float formatting is
idealised; integers print exactly as JS does, which is all the repository's
cache keys contain). -/
def ratRepr (q : ℚ) : String :=
  if q.den = 1 then intRepr q.num
  else intRepr q.num ++ "/" ++ Nat.repr q.den

def escapeJsonChar (c : Char) : List Char :=
  if c = '"' then ['\\', '"']
  else if c = '\\' then ['\\', '\\']
  else [c]

mutual

/-- Model of `JSON.stringify` on the JSON value universe. -/
def jsonStringify : Json → String
  | .null => "null"
  | .bool true => "true"
  | .bool false => "false"
  | .num q => ratRepr q
  | .str s => "\"" ++ String.mk (s.data.flatMap escapeJsonChar) ++ "\""
  | .arr xs => "[" ++ String.intercalate "," (jsonStringifyList xs) ++ "]"
  | .obj fs => "\x7b" ++ String.intercalate "," (jsonStringifyFields fs) ++ "\x7d"

def jsonStringifyList : List Json → List String
  | [] => []
  | j :: js => jsonStringify j :: jsonStringifyList js

def jsonStringifyFields : List (String × Json) → List String
  | [] => []
  | (k, v) :: fs => ("\"" ++ k ++ "\":" ++ jsonStringify v) :: jsonStringifyFields fs

end

/-- `.sort(([a], [b]) => a.localeCompare(b))` on the entry list, modelled as a
sort by the string order (the repository's keys are plain ASCII names, on
which `localeCompare` agrees with code-point order). -/
@[reducible] def paramLe (p q : String × Json) : Prop := String.le p.1 q.1

instance : DecidableRel paramLe := fun p q => String.decLE p.1 q.1

def sortParams (ps : List (String × Json)) : List (String × Json) :=
  List.insertionSort paramLe ps

/-- Keys strictly increase along a run of sorted entries with distinct
names. -/
def paramLt (p q : String × Json) : Prop :=
  List.Lex (· < ·) p.1.data q.1.data

/-- `generateKey` from `useMapCache.ts`: sort the entries by name and join
`name:JSON(value)` pairs. -/
def generateKey (opType : String) (params : List (String × Json)) : String :=
  let sortedParams := (sortParams params).map
    (fun p => p.1 ++ ":" ++ jsonStringify p.2)
  opType ++ "(" ++ String.intercalate "," sortedParams ++ ")"

/-! ### History tracker (`useMapHistory` hook) -/

inductive OperationType where
  | create | modify | delete | style | move
  deriving DecidableEq

/-- `MapOperation` from the history hook. -/
structure MapOperation where
  opType : OperationType
  layerId : String
  feature : Option GeoFeature
  previousState : Option Json
  newState : Option Json
  timestamp : ℤ

structure HistoryState where
  undoStack : List MapOperation
  redoStack : List MapOperation

/-- `pushOperation`: append to the undo stack, dropping the oldest entry
(`shift`) when the bound is exceeded; always clear the redo stack. -/
def pushOperation (maxHistorySize : ℕ) (op : MapOperation)
    (st : HistoryState) : HistoryState :=
  let newStack := st.undoStack ++ [op]
  let newStack := if newStack.length > maxHistorySize then newStack.tail else newStack
  { undoStack := newStack, redoStack := [] }

/-- `undo`: no-op on an empty undo stack; otherwise move the top (most
recent) operation to the redo stack.  The second component is the operation
passed to the `onUndo` callback (`none` when no callback fires). -/
def historyUndo (st : HistoryState) : HistoryState × Option MapOperation :=
  match st.undoStack.getLast? with
  | none => (st, none)
  | some op =>
    ({ undoStack := st.undoStack.dropLast, redoStack := st.redoStack ++ [op] },
     some op)

/-- `redo`: symmetric to `undo`. -/
def historyRedo (st : HistoryState) : HistoryState × Option MapOperation :=
  match st.redoStack.getLast? with
  | none => (st, none)
  | some op =>
    ({ undoStack := st.undoStack ++ [op], redoStack := st.redoStack.dropLast },
     some op)

/-- `recordCreate`: a `pushOperation` with a create payload. -/
def recordCreate (maxHistorySize : ℕ) (now : ℤ) (layerId : String)
    (feature : GeoFeature) (st : HistoryState) : HistoryState :=
  pushOperation maxHistorySize
    { opType := .create, layerId := layerId, feature := some feature,
      previousState := none, newState := none, timestamp := now } st

/-! ### Throttle manager (`ThrottleManager` in `src/lib/services/throttle.ts`)

The asynchronous control flow is embedded as a state machine.  `submit`
models a call to `execute` up to its first suspension point (either the
caller is queued by `waitForCapacity`, or it increments `active` and starts
running).  `finish` models the `finally` block of a completed operation
(decrement `active`, run `processQueue`); the callers released by the drain
then resume (`resume`), each incrementing `active` — in JavaScript those
continuations run strictly after `processQueue` returns. -/

structure ThrottleConfig where
  maxConcurrent : ℕ
  maxPerSecond : ℕ
  maxBurstSize : ℕ
  cooldownPeriod : ℤ

/-- `DEFAULT_CONFIG` of the throttle manager. -/
def throttleDefaultConfig : ThrottleConfig :=
  { maxConcurrent := 5, maxPerSecond := 10, maxBurstSize := 20,
    cooldownPeriod := 1000 }

structure ThrottleState where
  active : ℕ
  queue : List ℕ
  lastExecutions : List ℤ
  cooldown : Bool

def throttleInit : ThrottleState :=
  { active := 0, queue := [], lastExecutions := [], cooldown := false }

/-- `shouldThrottle`: prune the sliding one-second window (a mutation that
persists), then test the three throttle conditions. -/
def shouldThrottle (cfg : ThrottleConfig) (now : ℤ) (st : ThrottleState) :
    Bool × ThrottleState :=
  let le := st.lastExecutions.filter (fun time => now - time < 1000)
  (decide (st.active ≥ cfg.maxConcurrent) ||
     decide (le.length ≥ cfg.maxPerSecond) || st.cooldown,
   { st with lastExecutions := le })

/-- `execute` up to its first suspension point: a throttled caller is pushed
onto the queue (`false`); otherwise `active` is incremented, the execution
timestamp recorded, and the operation starts (`true`). -/
def submit (cfg : ThrottleConfig) (id : ℕ) (now : ℤ) (st : ThrottleState) :
    ThrottleState × Bool :=
  let (thr, st₁) := shouldThrottle cfg now st
  if thr then ({ st₁ with queue := st₁.queue ++ [id] }, false)
  else
    ({ st₁ with active := st₁.active + 1,
                lastExecutions := st₁.lastExecutions ++ [now] }, true)

/-- A caller released from the queue resumes after its `await
waitForCapacity()`: it increments `active` and records its execution
timestamp without re-checking the throttle conditions. -/
def resume (now : ℤ) (st : ThrottleState) : ThrottleState :=
  { st with active := st.active + 1, lastExecutions := st.lastExecutions ++ [now] }

/-- The `while (this.queue.length > 0 && !this.shouldThrottle())` drain of
`processQueue`; returns the released caller ids in FIFO order.  Fuel is the
queue length (each iteration shifts one element). -/
def drainLoop (cfg : ThrottleConfig) (now : ℤ) :
    ℕ → ThrottleState → ThrottleState × List ℕ
  | 0, st => (st, [])
  | fuel + 1, st =>
    match st.queue with
    | [] => (st, [])
    | id :: rest =>
      let (thr, st₁) := shouldThrottle cfg now st
      if thr then (st₁, [])
      else
        let (st₂, ids) := drainLoop cfg now fuel { st₁ with queue := rest }
        (st₂, id :: ids)

/-- `processQueue`: drain the queue, then enter cooldown when the burst
ceiling is reached (the `setTimeout` that later clears the flag is the
separate `cooldownEnd` transition). -/
def processQueue (cfg : ThrottleConfig) (now : ℤ) (st : ThrottleState) :
    ThrottleState × List ℕ :=
  let (st₁, ids) := drainLoop cfg now st.queue.length st
  let st₂ :=
    if st₁.lastExecutions.length ≥ cfg.maxBurstSize ∧ !st₁.cooldown then
      { st₁ with cooldown := true }
    else st₁
  (st₂, ids)

/-- The `finally` block of `execute`: decrement `active` and drain. -/
def finishOp (cfg : ThrottleConfig) (now : ℤ) (st : ThrottleState) :
    ThrottleState × List ℕ :=
  processQueue cfg now { st with active := st.active - 1 }

/-- The cooldown `setTimeout` firing: clear the flag and drain again. -/
def cooldownEnd (cfg : ThrottleConfig) (now : ℤ) (st : ThrottleState) :
    ThrottleState × List ℕ :=
  processQueue cfg now { st with cooldown := false }

/-- A completed operation followed by the released callers' resumptions. -/
def finishAndResume (cfg : ThrottleConfig) (now : ℤ) (st : ThrottleState) :
    ThrottleState :=
  let (st₁, ids) := finishOp cfg now st
  ids.foldl (fun s _ => resume now s) st₁

/-- Simultaneous submissions of the callers in `ids` (all at time `now`). -/
def submitAll (cfg : ThrottleConfig) (now : ℤ) (ids : List ℕ)
    (st : ThrottleState) : ThrottleState :=
  ids.foldl (fun s id => (submit cfg id now s).1) st

/-! ### Spatial analysis (`SpatialService.createBuffer` in the spatial
service module) -/

/-- `SpatialService.createBuffer`, parameterised by the external
`turf.buffer` algorithm.  `Except.error` models a throw inside `turf.buffer`;
`Except.ok none` models it returning `undefined` (which the source turns
into a throw of its own).  Both are caught and the original feature is
returned. -/
def createBuffer (turfBuffer : Feature → ℚ → String → Except String (Option Feature))
    (feature : GeoFeature) (distance : ℚ) (units : String) : GeoFeature :=
  match turfBuffer (fromGeoJSONFeature feature) distance units with
  | .error _ => feature
  | .ok none => feature
  | .ok (some buffered) => toGeoJSONFeature buffered

/-! ### Clustering engine (`ClusterService` in `src/lib/services/cluster.ts`) -/

/-- `getFeatureCoordinates` from `src/lib/utils/geometry.ts`, defined on
editable features; on a `Polygon` it reads `coordinates[0]`, which is
`undefined` (`none`) for an empty coordinate list. -/
def getFeatureCoordinates (f : GeoFeature) : Option (List (List ℚ)) :=
  match f.geometry with
  | .lineString cs => some cs
  | .polygon cs => cs.head?
  | _ => none

/-- Sum of a coordinate list as in the `reduce` of `featureToPoint`
(component-wise over the first two components, starting from `[0, 0]`). -/
def coordSum (cs : List (List ℚ)) : ℚ × ℚ :=
  cs.foldl (fun acc c => (acc.1 + c.headD 0, acc.2 + (c.drop 1).headD 0)) (0, 0)

/-- A clustering input point: the representative `Point` feature, carrying
the spread of the source feature's properties plus
`properties.originalFeature`. -/
structure ClusterPoint where
  coordinates : ℚ × ℚ
  properties : List (String × Json)
  originalFeature : GeoFeature

/-- `ClusterService.featureToPoint`: throws (`Except.error`) unless the
feature is a `LineString` or `Polygon`; otherwise builds the centroid point.
(The division by the coordinate count uses rational division; the `NaN`
centroid a zero-length coordinate list would produce in JS is not modelled —
no claim touches it.) -/
def featureToPoint (f : GeoFeature) : Except String ClusterPoint :=
  if ¬ isEditableFeature f then
    .error "Feature must be a LineString or Polygon"
  else
    match getFeatureCoordinates f with
    | none => .error "TypeError: undefined coordinates"
    | some coords =>
      let s := coordSum coords
      .ok { coordinates := (s.1 / coords.length, s.2 / coords.length),
            properties := f.properties, originalFeature := f }

/-- The state of the clustering index that `loadFeatures` rebuilds. -/
structure ClusterState where
  features : List GeoFeature
  points : List ClusterPoint

/-- The `features.map(f => this.featureToPoint(f))` call: fail-fast on the
first conversion that throws. -/
def mapPoints : List GeoFeature → Except String (List ClusterPoint)
  | [] => .ok []
  | f :: fs =>
    match featureToPoint f with
    | .error e => .error e
    | .ok p =>
      match mapPoints fs with
      | .error e => .error e
      | .ok ps => .ok (p :: ps)

/-- `ClusterService.loadFeatures`: convert every feature; any conversion
error is caught, logged and re-signaled as the typed failure
`'Failed to load features for clustering'`. -/
def loadFeatures (fs : List GeoFeature) (_st : ClusterState) :
    Except String ClusterState :=
  match mapPoints fs with
  | .ok pts => .ok { features := fs, points := pts }
  | .error _ => .error "Failed to load features for clustering"

/-! ## Supporting definitions for the claim theorems -/

/-- An instrumented map-surface capability over a call log: every method
records its name; `zoomTo`, `modifyFeature` and `measure` then throw. -/
def probeMethods : MapMethods (List String) where
  zoomTo := fun _ _ s => (s ++ ["zoomTo"], .error "zoomTo failed")
  addFeature := fun _ _ _ s => (s ++ ["addFeature"], .ok ())
  modifyFeature := fun _ _ s => (s ++ ["modifyFeature"], .error "modifyFeature failed")
  removeFeature := fun _ _ s => (s ++ ["removeFeature"], .ok ())
  styleFeature := fun _ _ s => (s ++ ["styleFeature"], .ok ())
  measure := fun _ _ s => (s ++ ["measure"], .error "measure failed")
  buffer := fun _ _ _ s => (s ++ ["buffer"], .ok Json.null)

/-- A concrete store with one group holding one empty layer `L1`. -/
def sampleState : LayerServiceState :=
  { state :=
      { center := (0, 0), zoom := 2,
        layers :=
          [{ id := "G1", name := "group", visible := true,
             layers :=
               [{ id := "L1", name := "layer", layerType := "feature",
                  visible := true, features := [], style := none }] }] },
    nextUuid := 0 }

/-- A concrete id-less feature. -/
def sampleFeature : Feature :=
  { id := none, geometry := .point [0, 0], properties := none }

/-- A text with one directive whose JSON argument is malformed and one
well-formed directive. -/
def c1Text : String :=
  "see [modify_feature f1 \x7bbad\x7d] then [zoom_to 51.5081 -0.0759 15] done"

/-- The one command the parser extracts from `c1Text`. -/
def c1ZoomCommand : MapCommand :=
  .zoom_to (.num (mkRat 515081 10000), .num (mkRat (-759) 10000))
    (some (.num 15))

/-- Single-space join of argument token character lists. -/
def spaceJoin : List (List Char) → List Char
  | [] => []
  | [a] => a
  | a :: rest => a ++ ' ' :: spaceJoin rest

/-- The directive string `[type arg₁ … argₙ]` built from a command type and
argument tokens — the spec's notion of a directive built from a known type
and valid arguments (stated from the spec, to be compared against the
parser). -/
def buildDirective (t : String) (args : List String) : String :=
  "[" ++ t ++ " " ++ String.mk (spaceJoin (args.map String.data)) ++ "]"

/-- A well-formed argument token: non-empty, no whitespace, no `]`. -/
def validToken (a : String) : Prop :=
  a.data ≠ [] ∧ ∀ c ∈ a.data, isJsSpace c = false ∧ c ≠ ']'

instance : DecidablePred validToken := fun _ =>
  inferInstanceAs (Decidable (_ ∧ _))

/-! ## Claim theorems -/

/-- C3: `MapService.executeMapCommands` returns the original input text
unchanged for every text and every capability object, and an exception
thrown by the capability during one command (here `zoomTo`, which always
throws in `probeMethods`) is caught and does not prevent the execution of
the next command in the batch (`addFeature` still runs and is logged). -/
theorem executeMapCommands_text_unchanged_and_isolated :
    (∀ (σ : Type) (m : MapMethods σ) (text : String) (s : σ),
       (executeMapCommands m text s).2 = text) ∧
    executeMapCommands probeMethods "[zoom_to 1 2][add_feature \x7b\x7d l1]" [] =
      (["zoomTo", "addFeature"], "[zoom_to 1 2][add_feature \x7b\x7d l1]") := by
  exact ⟨fun σ m text s => rfl, rfl⟩

/-- C9: `SpatialService.createBuffer` never throws — it is a total function
whose result is either the buffered feature or the original input — and
whenever the underlying `turf.buffer` computation throws or yields no
result, the original feature is returned unchanged. -/
theorem createBuffer_returns_original_on_failure
    (turfBuffer : Feature → ℚ → String → Except String (Option Feature))
    (f : GeoFeature) (d : ℚ) (u : String) :
    (∀ e, turfBuffer (fromGeoJSONFeature f) d u = .error e →
       createBuffer turfBuffer f d u = f) ∧
    (turfBuffer (fromGeoJSONFeature f) d u = .ok none →
       createBuffer turfBuffer f d u = f) ∧
    (∀ b, turfBuffer (fromGeoJSONFeature f) d u = .ok (some b) →
       createBuffer turfBuffer f d u = toGeoJSONFeature b) := by
  refine ⟨fun e he => ?_, fun he => ?_, fun b hb => ?_⟩
  · simp [createBuffer, he]
  · simp [createBuffer, he]
  · simp [createBuffer, hb]

/-- Witness for C9 at a concrete always-throwing buffer algorithm. -/
theorem createBuffer_returns_original_on_failure_witness :
    createBuffer (fun _ _ _ => .error "turf buffer failed")
      { id := none, geometry := .point [0, 0], properties := [] } 1 "meters" =
      { id := none, geometry := .point [0, 0], properties := [] } :=
  (createBuffer_returns_original_on_failure
    (fun _ _ _ => .error "turf buffer failed")
    { id := none, geometry := .point [0, 0], properties := [] } 1 "meters").1
    "turf buffer failed" rfl

/-- A member whose conversion fails makes the whole conversion pass fail. -/
lemma mapPoints_error_of_mem {fs : List GeoFeature} {f : GeoFeature}
    (hf : f ∈ fs) (he : ∀ p, featureToPoint f ≠ .ok p) :
    ∃ e, mapPoints fs = .error e := by
  induction fs with
  | nil => cases hf
  | cons a rest ih =>
    cases hfa : featureToPoint a with
    | error e => exact ⟨e, by simp [mapPoints, hfa]⟩
    | ok p =>
      rcases List.mem_cons.mp hf with rfl | hmem
      · exact absurd hfa (he p)
      · rcases ih hmem with ⟨e, hrec⟩
        exact ⟨e, by simp [mapPoints, hfa, hrec]⟩

/-- C10: `ClusterService.loadFeatures` re-signals the centroid conversion
failure as the typed error `'Failed to load features for clustering'`
whenever any input feature is neither a `LineString` nor a `Polygon`; in
particular a feature with `Point` geometry can never be loaded. -/
theorem loadFeatures_rejects_uneditable :
    (∀ (fs : List GeoFeature) (st : ClusterState) (f : GeoFeature),
       f ∈ fs → isEditableFeature f = false →
       loadFeatures fs st = .error "Failed to load features for clustering") ∧
    (∀ (fs : List GeoFeature) (st : ClusterState) (f : GeoFeature)
       (cs : List ℚ), f ∈ fs → f.geometry = .point cs →
       loadFeatures fs st = .error "Failed to load features for clustering") := by
  have main : ∀ (fs : List GeoFeature) (st : ClusterState) (f : GeoFeature),
      f ∈ fs → isEditableFeature f = false →
      loadFeatures fs st = .error "Failed to load features for clustering" := by
    intro fs st f hf hne
    have herr : ∀ p, featureToPoint f ≠ .ok p := by
      intro p
      simp [featureToPoint, hne]
    rcases mapPoints_error_of_mem hf herr with ⟨e, hmapM⟩
    simp [loadFeatures, hmapM]
  refine ⟨main, fun fs st f cs hf hgeom => main fs st f hf ?_⟩
  simp [isEditableFeature, hgeom, Geometry.typeName]

/-- Witness for C10: a `Point` feature makes `loadFeatures` fail. -/
theorem loadFeatures_rejects_uneditable_witness :
    loadFeatures [{ id := none, geometry := .point [1, 2], properties := [] }]
      { features := [], points := [] } =
      .error "Failed to load features for clustering" :=
  loadFeatures_rejects_uneditable.2
    [{ id := none, geometry := .point [1, 2], properties := [] }]
    { features := [], points := [] }
    { id := none, geometry := .point [1, 2], properties := [] }
    [1, 2] (List.mem_singleton.mpr rfl) rfl

lemma mapFind_eq_none_of_not_mem_keys {α : Type} {key : String}
    {c : CacheMap α} (h : key ∉ c.map Prod.fst) : mapFind key c = none := by
  induction c with
  | nil => rfl
  | cons p rest ih =>
    simp only [List.map_cons, List.mem_cons, not_or] at h
    have hk : p.1 ≠ key := fun he => h.1 he.symm
    cases p with
    | mk k e => simpa [mapFind, hk] using ih h.2

lemma mapFind_mapDelete_self {α : Type} (key : String) (c : CacheMap α)
    (hnd : (c.map Prod.fst).Nodup) :
    mapFind key (mapDelete key c) = none := by
  induction c with
  | nil => rfl
  | cons p rest ih =>
    obtain ⟨k, e⟩ := p
    simp only [List.map_cons, List.nodup_cons] at hnd
    by_cases hk : k = key
    · subst hk
      simpa [mapDelete] using mapFind_eq_none_of_not_mem_keys hnd.1
    · simpa [mapDelete, hk, mapFind, Ne.symm hk] using ih hnd.2

/-- C5: `CacheService.get` never returns a value from an entry whose age
exceeds its time-to-live — whenever `now − timestamp > ttl` the read returns
`null` and evicts the entry — and in particular `set(key, v, ttl := 10)`
followed by a read past 10 ms returns `null`. -/
theorem cacheGet_never_returns_expired :
    (∀ (α : Type) (c : CacheMap α) (key : String) (now : ℤ) (e : CacheEntry α),
       (c.map Prod.fst).Nodup → mapFind key c = some e →
       now - e.timestamp > e.ttl →
       (cacheGet now key c).1 = none ∧
         mapFind key (cacheGet now key c).2 = none) ∧
    (cacheGet 11 "k" (cacheSet cacheDefaultConfig 0 "k" (0 : ℕ) (some 10) [])).1
      = none := by
  constructor
  · intro α c key now e hnd hfind hexp
    have hexpb : isExpired e now = true := by
      simp [isExpired, hexp]
    constructor
    · simp [cacheGet, hfind, hexpb]
    · simp [cacheGet, hfind, hexpb, mapFind_mapDelete_self key c hnd]
  · rfl

/-- Witness for C5 at a concrete expired entry. -/
theorem cacheGet_never_returns_expired_witness :
    (cacheGet 11 "k"
        [("k", ⟨(0 : ℕ), 0, 10, 0, 0⟩)]).1 = none ∧
      mapFind "k" (cacheGet 11 "k"
        [("k", (⟨(0 : ℕ), 0, 10, 0, 0⟩ : CacheEntry ℕ))]).2 = none :=
  cacheGet_never_returns_expired.1 ℕ [("k", ⟨0, 0, 10, 0, 0⟩)] "k" 11
    ⟨0, 0, 10, 0, 0⟩ (by simp) rfl (by decide)

lemma tail_append_singleton {α : Type} (l : List α) (a : α) (h : l ≠ []) :
    (l ++ [a]).tail = l.tail ++ [a] := by
  cases l with
  | nil => exact absurd rfl h
  | cons x xs => rfl

/-- C7: in the history tracker, `pushOperation` always clears the redo
stack; the undo stack never grows beyond the configured maximum, with the
oldest entry dropped on overflow (not the newest); `undo` on a non-empty
undo stack moves the top operation to the redo stack and invokes the undo
callback with that operation; and `undo`/`redo` on an empty respective
stack is a no-op, not an error. -/
theorem history_stack_discipline :
    (∀ (maxH : ℕ) (op : MapOperation) (st : HistoryState),
       (pushOperation maxH op st).redoStack = []) ∧
    (∀ (maxH : ℕ) (op : MapOperation) (st : HistoryState),
       st.undoStack.length ≤ maxH →
       (pushOperation maxH op st).undoStack.length ≤ maxH) ∧
    (∀ (maxH : ℕ) (op : MapOperation) (st : HistoryState),
       st.undoStack.length = maxH → 0 < maxH →
       (pushOperation maxH op st).undoStack = st.undoStack.tail ++ [op]) ∧
    (∀ (st : HistoryState) (op : MapOperation),
       st.undoStack.getLast? = some op →
       historyUndo st =
         ({ undoStack := st.undoStack.dropLast,
            redoStack := st.redoStack ++ [op] }, some op)) ∧
    (∀ st : HistoryState, st.undoStack = [] → historyUndo st = (st, none)) ∧
    (∀ st : HistoryState, st.redoStack = [] → historyRedo st = (st, none)) := by
  refine ⟨?_, ?_, ?_, ?_, ?_, ?_⟩
  · intro maxH op st
    simp [pushOperation]
  · intro maxH op st h
    simp only [pushOperation]
    split
    · simp only [List.length_tail, List.length_append, List.length_singleton]
      omega
    · rename_i hle
      simp only [List.length_append, List.length_singleton] at hle ⊢
      omega
  · intro maxH op st hlen hpos
    have hover : (st.undoStack ++ [op]).length > maxH := by
      simp [hlen]
    have hne : st.undoStack ≠ [] := by
      intro hnil
      rw [hnil] at hlen
      simp at hlen
      omega
    simp only [pushOperation]
    rw [if_pos hover]
    exact tail_append_singleton _ _ hne
  · intro st op h
    simp [historyUndo, h]
  · intro st h
    simp [historyUndo, h]
  · intro st h
    simp [historyRedo, h]

/-- Witness for C7 at concrete operations: a `recordCreate` followed by an
`undo` moves the operation to the redo stack and reports it to the
callback; a push at capacity drops the oldest entry. -/
theorem history_stack_discipline_witness :
    (pushOperation 50 ⟨.create, "l", none, none, none, 0⟩
        ⟨[], [⟨.modify, "l", none, none, none, 1⟩]⟩).redoStack = [] ∧
    (pushOperation 1 ⟨.create, "l", none, none, none, 2⟩
        ⟨[⟨.create, "l", none, none, none, 0⟩], []⟩).undoStack.length ≤ 1 ∧
    (pushOperation 1 ⟨.create, "l", none, none, none, 2⟩
        ⟨[⟨.create, "l", none, none, none, 0⟩], []⟩).undoStack =
      [⟨.create, "l", none, none, none, 0⟩].tail ++
        [⟨.create, "l", none, none, none, 2⟩] ∧
    historyUndo ⟨[⟨.create, "l", none, none, none, 0⟩], []⟩ =
      (⟨[], [⟨.create, "l", none, none, none, 0⟩]⟩,
       some ⟨.create, "l", none, none, none, 0⟩) ∧
    historyUndo ⟨[], [⟨.create, "l", none, none, none, 0⟩]⟩ =
      (⟨[], [⟨.create, "l", none, none, none, 0⟩]⟩, none) ∧
    historyRedo ⟨[⟨.create, "l", none, none, none, 0⟩], []⟩ =
      (⟨[⟨.create, "l", none, none, none, 0⟩], []⟩, none) :=
  ⟨history_stack_discipline.1 50 _ _,
   history_stack_discipline.2.1 1 _ _ (by simp),
   history_stack_discipline.2.2.1 1 _ _ (by simp) (by simp),
   history_stack_discipline.2.2.2.1 _ _ rfl,
   history_stack_discipline.2.2.2.2.1 _ rfl,
   history_stack_discipline.2.2.2.2.2 _ rfl⟩

/-- The core-library string order used by `String.decLE` unfolds to the
lexicographic order on the character lists. -/
lemma stringLe_def (a b : String) : String.le a b ↔ ¬ List.lt b.data a.data :=
  Iff.rfl

lemma stringLe_iff_not_lex (a b : String) :
    String.le a b ↔ ¬ List.Lex (· < ·) b.data a.data := by
  rw [stringLe_def, List.lt_iff_lex_lt]

/-- Trichotomy of the character-list lexicographic order, with the
relation spelled out so instance resolution succeeds. -/
lemma lexTrichotomy (x y : List Char) :
    List.Lex (· < ·) x y ∨ x = y ∨ List.Lex (· < ·) y x :=
  trichotomous_of (List.Lex (· < ·)) x y

lemma lexAsymm {x y : List Char} (h : List.Lex (· < ·) x y) :
    ¬ List.Lex (· < ·) y x :=
  asymm_of (List.Lex (· < ·)) h

lemma lexTrans {x y z : List Char} (h₁ : List.Lex (· < ·) x y)
    (h₂ : List.Lex (· < ·) y z) : List.Lex (· < ·) x z :=
  trans_of (List.Lex (· < ·)) h₁ h₂

instance : IsTotal (String × Json) paramLe := by
  constructor
  intro p q
  rw [paramLe, paramLe, stringLe_iff_not_lex, stringLe_iff_not_lex]
  by_cases h : List.Lex (· < ·) q.1.data p.1.data
  · exact Or.inr fun h' => lexAsymm h h'
  · exact Or.inl h

instance : IsTrans (String × Json) paramLe := by
  constructor
  intro a b c hab hbc
  rw [paramLe, stringLe_iff_not_lex] at hab hbc ⊢
  intro hca
  rcases lexTrichotomy a.1.data b.1.data with hlt | heq | hgt
  · exact hbc (lexTrans hca hlt)
  · exact hbc (heq ▸ hca)
  · exact hab hgt

instance : IsAntisymm (String × Json) paramLt :=
  ⟨fun _ _ h₁ h₂ => absurd h₂ (lexAsymm h₁)⟩

lemma sorted_paramLt_of_sorted_le {l : List (String × Json)}
    (hs : l.Sorted paramLe) (hnd : (l.map Prod.fst).Nodup) :
    l.Sorted paramLt := by
  have hnd' : l.Pairwise (fun p q => p.1 ≠ q.1) := List.pairwise_map.mp hnd
  refine (hs.and hnd').imp fun {a b} h => ?_
  have hle := (stringLe_iff_not_lex a.1 b.1).mp h.1
  rcases lexTrichotomy a.1.data b.1.data with hlt | heq | hgt
  · exact hlt
  · exact absurd (String.ext heq) h.2
  · exact absurd hgt hle

/-- C6: `generateKey` produces the same cache key for two parameter records
containing the same name-to-value bindings in any insertion order (names are
sorted before concatenation); in particular
`generateKey('f', {a:1, b:2}) = generateKey('f', {b:2, a:1})`. -/
theorem generateKey_order_independent :
    (∀ (opType : String) (ps qs : List (String × Json)),
       ps.Perm qs → (ps.map Prod.fst).Nodup →
       generateKey opType ps = generateKey opType qs) ∧
    generateKey "f" [("a", .num 1), ("b", .num 2)] =
      generateKey "f" [("b", .num 2), ("a", .num 1)] := by
  constructor
  · intro t ps qs hperm hnd
    have hsortp : (sortParams ps).Perm (sortParams qs) :=
      (List.perm_insertionSort paramLe ps).trans
        (hperm.trans (List.perm_insertionSort paramLe qs).symm)
    have hndp : ((sortParams ps).map Prod.fst).Nodup :=
      (((List.perm_insertionSort paramLe ps).map Prod.fst).nodup_iff).mpr hnd
    have hndq : ((sortParams qs).map Prod.fst).Nodup :=
      ((hsortp.map Prod.fst).nodup_iff).mp hndp
    have hsp : sortParams ps = sortParams qs :=
      List.eq_of_perm_of_sorted (r := paramLt) hsortp
        (sorted_paramLt_of_sorted_le
          (List.sorted_insertionSort paramLe ps) hndp)
        (sorted_paramLt_of_sorted_le
          (List.sorted_insertionSort paramLe qs) hndq)
    simp [generateKey, hsp]
  · rfl

/-- Witness for C6 on a two-entry record in both insertion orders. -/
theorem generateKey_order_independent_witness :
    generateKey "g" [("a", .num 1), ("b", .num 2)] =
      generateKey "g" [("b", .num 2), ("a", .num 1)] :=
  generateKey_order_independent.1 "g" _ _
    (List.Perm.swap ("b", Json.num 2) ("a", Json.num 1) []) (by simp)

lemma addFeatureInLayers_none_iff (g : GeoFeature) (lid : String) :
    ∀ ls : List Layer,
      addFeatureInLayers g lid ls = none ↔ getLayerInLayers lid ls = none := by
  intro ls
  induction ls with
  | nil => simp [addFeatureInLayers, getLayerInLayers]
  | cons l rest ih =>
    by_cases hid : l.id = lid
    · simp [addFeatureInLayers, getLayerInLayers, hid]
    · simp only [addFeatureInLayers, getLayerInLayers, if_neg hid]
      cases hrec : addFeatureInLayers g lid rest with
      | none => simpa [hrec] using ih.mp hrec
      | some ls' =>
        simp only [hrec, Option.map_some']
        constructor
        · intro hx; cases hx
        · intro hfind
          exact absurd (ih.mpr hfind) (by simp [hrec])

lemma addFeatureInLayers_spec (g : GeoFeature) (lid : String) :
    ∀ (ls ls' : List Layer), addFeatureInLayers g lid ls = some ls' →
      ∃ l, getLayerInLayers lid ls = some l ∧
        getLayerInLayers lid ls' =
          some { l with features := l.features ++ [g] } := by
  intro ls
  induction ls with
  | nil => intro ls' h; cases h
  | cons l rest ih =>
    intro ls' h
    by_cases hid : l.id = lid
    · simp only [addFeatureInLayers, if_pos hid] at h
      obtain rfl := Option.some.inj h
      exact ⟨l, by simp [getLayerInLayers, hid], by simp [getLayerInLayers, hid]⟩
    · simp only [addFeatureInLayers, if_neg hid] at h
      cases hrec : addFeatureInLayers g lid rest with
      | none => rw [hrec] at h; cases h
      | some rest' =>
        rw [hrec] at h
        simp only [Option.map_some'] at h
        obtain rfl := Option.some.inj h
        rcases ih rest' hrec with ⟨l₀, hfind, hfind'⟩
        refine ⟨l₀, ?_, ?_⟩
        · simp only [getLayerInLayers, if_neg hid]
          exact hfind
        · simp only [getLayerInLayers, if_neg hid]
          exact hfind'

lemma addFeatureInLayers_twice (g g' : GeoFeature) (lid : String) :
    ∀ (ls ls' ls'' : List Layer), addFeatureInLayers g lid ls = some ls' →
      addFeatureInLayers g' lid ls' = some ls'' →
      ∃ l, getLayerInLayers lid ls = some l ∧
        getLayerInLayers lid ls'' =
          some { l with features := l.features ++ [g, g'] } := by
  intro ls
  induction ls with
  | nil => intro ls' ls'' h; cases h
  | cons l rest ih =>
    intro ls' ls'' h h'
    by_cases hid : l.id = lid
    · simp only [addFeatureInLayers, if_pos hid] at h
      obtain rfl := Option.some.inj h
      simp only [addFeatureInLayers, if_pos hid] at h'
      obtain rfl := Option.some.inj h'
      refine ⟨l, by simp [getLayerInLayers, hid], ?_⟩
      simp [getLayerInLayers, hid]
    · simp only [addFeatureInLayers, if_neg hid] at h
      cases hrec : addFeatureInLayers g lid rest with
      | none => rw [hrec] at h; cases h
      | some rest' =>
        rw [hrec] at h
        simp only [Option.map_some'] at h
        obtain rfl := Option.some.inj h
        simp only [addFeatureInLayers, if_neg hid] at h'
        cases hrec' : addFeatureInLayers g' lid rest' with
        | none => rw [hrec'] at h'; cases h'
        | some rest'' =>
          rw [hrec'] at h'
          simp only [Option.map_some'] at h'
          obtain rfl := Option.some.inj h'
          rcases ih rest' rest'' hrec hrec' with ⟨l₀, hfind, hfind''⟩
          refine ⟨l₀, ?_, ?_⟩
          · simp only [getLayerInLayers, if_neg hid]
            exact hfind
          · simp only [getLayerInLayers, if_neg hid]
            exact hfind''

lemma addFeatureInGroups_spec (g : GeoFeature) (lid : String) :
    ∀ (gs gs' : List LayerGroup), addFeatureInGroups g lid gs = some gs' →
      ∃ l, getLayerInGroups lid gs = some l ∧
        getLayerInGroups lid gs' =
          some { l with features := l.features ++ [g] } := by
  intro gs
  induction gs with
  | nil => intro gs' h; cases h
  | cons gr rest ih =>
    intro gs' h
    cases hl : addFeatureInLayers g lid gr.layers with
    | some ls =>
      simp only [addFeatureInGroups, hl] at h
      obtain rfl := Option.some.inj h
      rcases addFeatureInLayers_spec g lid gr.layers ls hl with ⟨l, hfind, hfind'⟩
      refine ⟨l, ?_, ?_⟩
      · simp only [getLayerInGroups, hfind]
      · simp only [getLayerInGroups]
        rw [hfind']
    | none =>
      simp only [addFeatureInGroups, hl] at h
      cases hrec : addFeatureInGroups g lid rest with
      | none => rw [hrec] at h; cases h
      | some rest' =>
        rw [hrec] at h
        simp only [Option.map_some'] at h
        obtain rfl := Option.some.inj h
        rcases ih rest' hrec with ⟨l₀, hfind, hfind'⟩
        have hnone : getLayerInLayers lid gr.layers = none :=
          (addFeatureInLayers_none_iff g lid gr.layers).mp hl
        refine ⟨l₀, ?_, ?_⟩
        · simp only [getLayerInGroups, hnone]
          exact hfind
        · simp only [getLayerInGroups, hnone]
          exact hfind'

lemma addFeatureInGroups_twice (g g' : GeoFeature) (lid : String) :
    ∀ (gs gs' gs'' : List LayerGroup), addFeatureInGroups g lid gs = some gs' →
      addFeatureInGroups g' lid gs' = some gs'' →
      ∃ l, getLayerInGroups lid gs = some l ∧
        getLayerInGroups lid gs'' =
          some { l with features := l.features ++ [g, g'] } := by
  intro gs
  induction gs with
  | nil => intro gs' gs'' h; cases h
  | cons gr rest ih =>
    intro gs' gs'' h h'
    cases hl : addFeatureInLayers g lid gr.layers with
    | some ls =>
      simp only [addFeatureInGroups, hl] at h
      obtain rfl := Option.some.inj h
      cases hl' : addFeatureInLayers g' lid ls with
      | some ls' =>
        simp only [addFeatureInGroups, hl'] at h'
        obtain rfl := Option.some.inj h'
        rcases addFeatureInLayers_twice g g' lid gr.layers ls ls' hl hl' with
          ⟨l, hfind, hfind''⟩
        refine ⟨l, ?_, ?_⟩
        · simp only [getLayerInGroups, hfind]
        · simp only [getLayerInGroups]
          rw [hfind'']
      | none =>
        exfalso
        rcases addFeatureInLayers_spec g lid gr.layers ls hl with ⟨l, _, hfind'⟩
        have := (addFeatureInLayers_none_iff g' lid ls).mp hl'
        rw [this] at hfind'
        cases hfind'
    | none =>
      simp only [addFeatureInGroups, hl] at h
      cases hrec : addFeatureInGroups g lid rest with
      | none => rw [hrec] at h; cases h
      | some rest' =>
        rw [hrec] at h
        simp only [Option.map_some'] at h
        obtain rfl := Option.some.inj h
        have hnone : getLayerInLayers lid gr.layers = none :=
          (addFeatureInLayers_none_iff g lid gr.layers).mp hl
        cases hl' : addFeatureInLayers g' lid gr.layers with
        | some ls' =>
          exfalso
          rcases addFeatureInLayers_spec g' lid gr.layers ls' hl' with ⟨l, hfind, _⟩
          rw [hnone] at hfind
          cases hfind
        | none =>
          simp only [addFeatureInGroups, hl'] at h'
          cases hrec' : addFeatureInGroups g' lid rest' with
          | none => rw [hrec'] at h'; cases h'
          | some rest'' =>
            rw [hrec'] at h'
            simp only [Option.map_some'] at h'
            obtain rfl := Option.some.inj h'
            rcases ih rest' rest'' hrec hrec' with ⟨l₀, hfind, hfind''⟩
            refine ⟨l₀, ?_, ?_⟩
            · simp only [getLayerInGroups, hnone]
              exact hfind
            · simp only [getLayerInGroups, hnone]
              exact hfind''

/-- The feature value `addFeatureToLayer` actually stores, and the counter
it leaves behind. -/
lemma addFeatureToLayer_success {lid : String} {f : Feature}
    {st st' : LayerServiceState}
    (h : addFeatureToLayer lid f st = (st', true)) :
    ∃ groups,
      addFeatureInGroups
        (if idFalsy (toGeoJSONFeature f).id then
          { toGeoJSONFeature f with id := some (.str (uuidGen st.nextUuid)) }
         else toGeoJSONFeature f) lid st.state.layers = some groups ∧
      st' = { state := { st.state with layers := groups },
              nextUuid :=
                if idFalsy (toGeoJSONFeature f).id then st.nextUuid + 1
                else st.nextUuid } := by
  by_cases hfal : idFalsy (toGeoJSONFeature f).id
  · simp only [addFeatureToLayer, hfal, if_true] at h
    cases hmatch : addFeatureInGroups
        { toGeoJSONFeature f with id := some (.str (uuidGen st.nextUuid)) }
        lid st.state.layers with
    | none =>
      rw [hmatch] at h
      simp at h
    | some groups =>
      rw [hmatch] at h
      simp only [Prod.mk.injEq] at h
      refine ⟨groups, ?_, ?_⟩
      · rw [if_pos hfal, hmatch]
      · rw [if_pos hfal, ← h.1]
  · simp [addFeatureToLayer, hfal] at h
    cases hmatch : addFeatureInGroups (toGeoJSONFeature f) lid st.state.layers with
    | none =>
      rw [hmatch] at h
      simp at h
    | some groups =>
      rw [hmatch] at h
      simp only [Prod.mk.injEq] at h
      refine ⟨groups, ?_, ?_⟩
      · rw [if_neg hfal, hmatch]
      · rw [if_neg hfal, ← h.1]

lemma getLast?_append_pair₁ {α : Type} (xs : List α) (a b : α) :
    (xs ++ [a, b]).dropLast.getLast? = some a := by
  rw [show xs ++ [a, b] = (xs ++ [a]) ++ [b] by simp, List.dropLast_concat]
  exact List.getLast?_concat _

lemma getLast?_append_pair₂ {α : Type} (xs : List α) (a b : α) :
    (xs ++ [a, b]).getLast? = some b := by
  rw [show xs ++ [a, b] = (xs ++ [a]) ++ [b] by simp]
  exact List.getLast?_concat _

lemma uuidGen_injective : Function.Injective uuidGen := by
  intro a b h
  have := congrArg (fun s => s.data.length) h
  simpa [uuidGen] using this

/-- C4: a feature stored by a successful `addFeatureToLayer` always carries a
non-null identifier, and two successive insertions of id-less features into
the same layer store two features with different generated identifiers. -/
theorem addFeatureToLayer_ids :
    (∀ (lid : String) (f : Feature) (st st' : LayerServiceState),
       addFeatureToLayer lid f st = (st', true) →
       ∃ l g, getLayerById lid st'.state = some l ∧
         l.features.getLast? = some g ∧ g.id.isSome) ∧
    (∀ (lid : String) (f₁ f₂ : Feature) (st st₁ st₂ : LayerServiceState),
       f₁.id = none → f₂.id = none →
       addFeatureToLayer lid f₁ st = (st₁, true) →
       addFeatureToLayer lid f₂ st₁ = (st₂, true) →
       ∃ l g₁ g₂, getLayerById lid st₂.state = some l ∧
         l.features.dropLast.getLast? = some g₁ ∧
         l.features.getLast? = some g₂ ∧
         g₁.id.isSome ∧ g₂.id.isSome ∧ g₁.id ≠ g₂.id) := by
  constructor
  · intro lid f st st' h
    rcases addFeatureToLayer_success h with ⟨groups, hmatch, hst'⟩
    by_cases hfal : idFalsy (toGeoJSONFeature f).id
    · rw [if_pos hfal] at hmatch
      rcases addFeatureInGroups_spec _ lid _ _ hmatch with ⟨l, _, hfound⟩
      refine ⟨{ l with features := l.features ++
          [{ toGeoJSONFeature f with id := some (.str (uuidGen st.nextUuid)) }] },
        { toGeoJSONFeature f with id := some (.str (uuidGen st.nextUuid)) },
        ?_, ?_, ?_⟩
      · rw [hst']
        simpa [getLayerById] using hfound
      · exact List.getLast?_concat _
      · rfl
    · rw [if_neg hfal] at hmatch
      rcases addFeatureInGroups_spec _ lid _ _ hmatch with ⟨l, _, hfound⟩
      refine ⟨{ l with features := l.features ++ [toGeoJSONFeature f] },
        toGeoJSONFeature f, ?_, ?_, ?_⟩
      · rw [hst']
        simpa [getLayerById] using hfound
      · exact List.getLast?_concat _
      · cases hid : (toGeoJSONFeature f).id with
        | none => rw [hid] at hfal; exact absurd rfl hfal
        | some x => rfl
  · intro lid f₁ f₂ st st₁ st₂ hid₁ hid₂ h₁ h₂
    have hfal₁ : idFalsy (toGeoJSONFeature f₁).id = true := by
      simp [toGeoJSONFeature, hid₁, idFalsy]
    have hfal₂ : idFalsy (toGeoJSONFeature f₂).id = true := by
      simp [toGeoJSONFeature, hid₂, idFalsy]
    rcases addFeatureToLayer_success h₁ with ⟨groups₁, hmatch₁, hst₁⟩
    rcases addFeatureToLayer_success h₂ with ⟨groups₂, hmatch₂, hst₂⟩
    rw [if_pos hfal₁] at hmatch₁
    rw [if_pos hfal₂] at hmatch₂
    have hst₁layers : st₁.state.layers = groups₁ := by rw [hst₁]
    have hst₁next : st₁.nextUuid = st.nextUuid + 1 := by
      rw [hst₁]
      simp [hfal₁]
    rw [hst₁layers, hst₁next] at hmatch₂
    rcases addFeatureInGroups_twice _ _ lid _ _ _ hmatch₁ hmatch₂ with
      ⟨l, _, hfound⟩
    refine ⟨{ l with features := l.features ++
        [{ toGeoJSONFeature f₁ with id := some (.str (uuidGen st.nextUuid)) },
         { toGeoJSONFeature f₂ with
            id := some (.str (uuidGen (st.nextUuid + 1))) }] },
      { toGeoJSONFeature f₁ with id := some (.str (uuidGen st.nextUuid)) },
      { toGeoJSONFeature f₂ with id := some (.str (uuidGen (st.nextUuid + 1))) },
      ?_, ?_, ?_, ?_, ?_, ?_⟩
    · rw [hst₂]
      simpa [getLayerById] using hfound
    · exact getLast?_append_pair₁ _ _ _
    · exact getLast?_append_pair₂ _ _ _
    · rfl
    · rfl
    · simp only [ne_eq, Option.some.injEq, FeatureId.str.injEq]
      intro hcontra
      exact Nat.succ_ne_self st.nextUuid (uuidGen_injective hcontra).symm

/-- Witness for C4: two successive insertions of the id-less
`sampleFeature` into layer `L1` store two features with distinct non-null
generated ids. -/
theorem addFeatureToLayer_ids_witness :
    ∃ l g₁ g₂,
      getLayerById "L1" ((addFeatureToLayer "L1" sampleFeature
          (addFeatureToLayer "L1" sampleFeature sampleState).1).1.state) =
        some l ∧
      l.features.dropLast.getLast? = some g₁ ∧
      l.features.getLast? = some g₂ ∧
      g₁.id.isSome ∧ g₂.id.isSome ∧ g₁.id ≠ g₂.id :=
  addFeatureToLayer_ids.2 "L1" sampleFeature sampleFeature sampleState
    (addFeatureToLayer "L1" sampleFeature sampleState).1
    (addFeatureToLayer "L1" sampleFeature
      (addFeatureToLayer "L1" sampleFeature sampleState).1).1
    rfl rfl rfl rfl

lemma filter_window_replicate (n : ℕ) (now t : ℤ) (h : now - t < 1000) :
    (List.replicate n t).filter (fun time => decide (now - time < 1000)) =
      List.replicate n t :=
  List.filter_eq_self.mpr (by
    intro a ha
    rw [List.eq_of_mem_replicate ha]
    simpa using h)

/-- After `k ≤ maxConcurrent` simultaneous submissions from the idle state,
`k` operations are active, none is queued, and the one-second window holds
`k` timestamps. -/
lemma submitAll_range_le (cfg : ThrottleConfig) (t : ℤ)
    (hmps : cfg.maxConcurrent < cfg.maxPerSecond) :
    ∀ k, k ≤ cfg.maxConcurrent →
      submitAll cfg t (List.range k) throttleInit =
        { active := k, queue := [], lastExecutions := List.replicate k t,
          cooldown := false } := by
  intro k
  induction k with
  | zero => intro _; rfl
  | succ n ih =>
    intro hk
    have hn : n ≤ cfg.maxConcurrent := Nat.le_of_succ_le hk
    have hrec := ih hn
    rw [List.range_succ]
    rw [show submitAll cfg t (List.range n ++ [n]) throttleInit =
      (submit cfg n t (submitAll cfg t (List.range n) throttleInit)).1 by
        simp [submitAll, List.foldl_append]]
    rw [hrec]
    have hfil := filter_window_replicate n t t (by omega)
    have hact : ¬ (n ≥ cfg.maxConcurrent) := by omega
    have hrate : ¬ (n ≥ cfg.maxPerSecond) := by omega
    simp only [submit, shouldThrottle, hfil, List.length_replicate]
    simp [hact, hrate, List.replicate_succ']

/-- C8: with `maxConcurrent < maxPerSecond` and the burst ceiling not
reached, submitting `maxConcurrent + 1` long-running operations
simultaneously leaves exactly `maxConcurrent` active and one caller queued;
the active count never exceeds `maxConcurrent` at any point of the burst;
and the queued caller is released (and resumes) exactly when an active
operation completes. -/
theorem throttle_ceiling (cfg : ThrottleConfig) (t now : ℤ)
    (h1 : 1 ≤ cfg.maxConcurrent)
    (h2 : cfg.maxConcurrent < cfg.maxPerSecond)
    (h3 : cfg.maxConcurrent < cfg.maxBurstSize)
    (hnow : now - t < 1000) :
    (submitAll cfg t (List.range (cfg.maxConcurrent + 1)) throttleInit =
      { active := cfg.maxConcurrent, queue := [cfg.maxConcurrent],
        lastExecutions := List.replicate cfg.maxConcurrent t,
        cooldown := false }) ∧
    (∀ k, k ≤ cfg.maxConcurrent + 1 →
       (submitAll cfg t (List.range k) throttleInit).active ≤
         cfg.maxConcurrent) ∧
    ((finishOp cfg now (submitAll cfg t (List.range (cfg.maxConcurrent + 1))
        throttleInit)).2 = [cfg.maxConcurrent]) ∧
    (finishAndResume cfg now (submitAll cfg t
        (List.range (cfg.maxConcurrent + 1)) throttleInit) =
      { active := cfg.maxConcurrent, queue := [],
        lastExecutions := List.replicate cfg.maxConcurrent t ++ [now],
        cooldown := false }) := by
  have hfull : submitAll cfg t (List.range (cfg.maxConcurrent + 1))
      throttleInit =
      { active := cfg.maxConcurrent, queue := [cfg.maxConcurrent],
        lastExecutions := List.replicate cfg.maxConcurrent t,
        cooldown := false } := by
    rw [List.range_succ]
    rw [show submitAll cfg t (List.range cfg.maxConcurrent ++
        [cfg.maxConcurrent]) throttleInit =
      (submit cfg cfg.maxConcurrent t
        (submitAll cfg t (List.range cfg.maxConcurrent) throttleInit)).1 by
        simp [submitAll, List.foldl_append]]
    rw [submitAll_range_le cfg t h2 cfg.maxConcurrent le_rfl]
    have hfil := filter_window_replicate cfg.maxConcurrent t t (by omega)
    simp [submit, shouldThrottle, hfil]
  have hfin : finishOp cfg now (submitAll cfg t
      (List.range (cfg.maxConcurrent + 1)) throttleInit) =
      ({ active := cfg.maxConcurrent - 1, queue := [],
         lastExecutions := List.replicate cfg.maxConcurrent t,
         cooldown := false }, [cfg.maxConcurrent]) := by
    rw [hfull]
    have hfil := filter_window_replicate cfg.maxConcurrent now t hnow
    have hact : ¬ (cfg.maxConcurrent - 1 ≥ cfg.maxConcurrent) := by omega
    have hrate : ¬ (cfg.maxConcurrent ≥ cfg.maxPerSecond) := by omega
    have hburst : ¬ (cfg.maxConcurrent ≥ cfg.maxBurstSize) := by omega
    simp only [finishOp, processQueue, List.length_singleton, drainLoop,
      shouldThrottle, hfil, List.length_replicate]
    simp [hact, hrate, hburst, drainLoop]
  refine ⟨hfull, ?_, ?_, ?_⟩
  · intro k hk
    rcases Nat.lt_or_ge k (cfg.maxConcurrent + 1) with hlt | hge
    · rw [submitAll_range_le cfg t h2 k (by omega)]
      show k ≤ cfg.maxConcurrent
      omega
    · have hkeq : k = cfg.maxConcurrent + 1 := by omega
      rw [hkeq, hfull]
  · rw [hfin]
  · rw [finishAndResume, hfin]
    simp only [List.foldl_cons, List.foldl_nil, resume]
    have : cfg.maxConcurrent - 1 + 1 = cfg.maxConcurrent := by omega
    simp [this]

/-- Witness for C8 at a concrete configuration (`maxConcurrent = 2`,
`maxPerSecond = 3`, `maxBurstSize = 4`): three simultaneous submissions
leave two active and one queued, and the completion of one operation
releases and resumes the queued caller. -/
theorem throttle_ceiling_witness :
    (submitAll ⟨2, 3, 4, 1000⟩ 0 (List.range 3) throttleInit =
      { active := 2, queue := [2], lastExecutions := [0, 0],
        cooldown := false }) ∧
    ((finishOp ⟨2, 3, 4, 1000⟩ 5 (submitAll ⟨2, 3, 4, 1000⟩ 0 (List.range 3)
        throttleInit)).2 = [2]) ∧
    (finishAndResume ⟨2, 3, 4, 1000⟩ 5 (submitAll ⟨2, 3, 4, 1000⟩ 0
        (List.range 3) throttleInit) =
      { active := 2, queue := [], lastExecutions := [0, 0, 5],
        cooldown := false }) := by
  have h := throttle_ceiling ⟨2, 3, 4, 1000⟩ 0 5 (by decide) (by decide)
    (by decide) (by decide)
  exact ⟨h.1, h.2.2.1, h.2.2.2⟩

/-- Counterexample to C1 as stated: numeric parsing fails for both
`zoom_to` arguments (`parseFloat('abc')` is NaN), yet the directive is NOT
dropped — `extractMapCommands` emits a `zoom_to` command with NaN
coordinates, because `parseFloat`/`parseInt` never throw and the
`try`/`catch` in `convertToMapCommand` only fires on `JSON.parse`. -/
theorem numeric_parse_failure_is_not_dropped :
    parseFloatJS "abc" = .nan ∧
    extractMapCommands "[zoom_to abc def]" =
      [.zoom_to (.nan, .nan) none] :=
  ⟨rfl, rfl⟩

/-- C1 (as amended): the parser is a total function that never throws; a
directive whose JSON argument conversion fails is dropped alone — every
directive that converts successfully still contributes its command, every
extracted command comes from some parsed directive, and the concrete text
`c1Text` (one malformed-JSON directive plus one well-formed directive)
parses two directives but yields exactly the one well-formed command.
(The numeric clause of the original claim is false of the code: numeric
parsing never fails into a drop, see `numeric_parse_failure_is_not_dropped`.) -/
theorem extractMapCommands_drops_only_failed_directives :
    (∀ (text : String) (d : ParsedCommand) (c : MapCommand),
       d ∈ parseMapCommands text → convertToMapCommand d = some c →
       c ∈ extractMapCommands text) ∧
    (∀ (text : String) (c : MapCommand), c ∈ extractMapCommands text →
       ∃ d, d ∈ parseMapCommands text ∧ convertToMapCommand d = some c) ∧
    (parseMapCommands c1Text).length = 2 ∧
    extractMapCommands c1Text = [c1ZoomCommand] := by
  refine ⟨?_, ?_, rfl, rfl⟩
  · intro text d c hd hc
    exact List.mem_filterMap.mpr ⟨d, hd, hc⟩
  · intro text c hc
    exact List.mem_filterMap.mp hc

/-- Witness for C1: the well-formed `zoom_to` directive of `c1Text` is
parsed, converts successfully, and its command is extracted. -/
theorem extractMapCommands_drops_only_failed_directives_witness :
    (⟨"zoom_to", ["51.5081", "-0.0759", "15"]⟩ : ParsedCommand) ∈
        parseMapCommands c1Text ∧
      convertToMapCommand ⟨"zoom_to", ["51.5081", "-0.0759", "15"]⟩ =
        some c1ZoomCommand ∧
      c1ZoomCommand ∈ extractMapCommands c1Text :=
  ⟨by decide, rfl,
   extractMapCommands_drops_only_failed_directives.1 c1Text
     ⟨"zoom_to", ["51.5081", "-0.0759", "15"]⟩ c1ZoomCommand (by decide) rfl⟩

lemma takeWhile_append_stop {p : Char → Bool} :
    ∀ (xs : List Char) (y : Char) (ys : List Char),
      (∀ c ∈ xs, p c = true) → p y = false →
      (xs ++ y :: ys).takeWhile p = xs := by
  intro xs y ys hall hy
  induction xs with
  | nil => simp [List.takeWhile_cons, hy]
  | cons x rest ih =>
    have hx : p x = true := hall x (by simp)
    simp only [List.cons_append, List.takeWhile_cons, hx, if_true]
    rw [ih (fun c hc => hall c (by simp [hc]))]

lemma dropWhile_eq_self_of_all {p : Char → Bool} :
    ∀ l : List Char, (∀ c ∈ l, p c = false) → l.dropWhile p = l := by
  intro l hall
  cases l with
  | nil => rfl
  | cons x rest => simp [List.dropWhile_cons, hall x (by simp)]

lemma stringMk_data (s : String) : String.mk s.data = s := rfl

/-- `jsTrim` is the identity on strings without JS whitespace. -/
lemma jsTrim_eq_self {s : String} (h : ∀ c ∈ s.data, isJsSpace c = false) :
    jsTrim s = s := by
  rw [jsTrim, dropWhile_eq_self_of_all s.data h,
    dropWhile_eq_self_of_all s.data.reverse
      (fun c hc => h c (List.mem_reverse.mp hc)),
    List.reverse_reverse, stringMk_data]

/-- `split(' ')` is the identity on a space-free character list. -/
lemma splitOnSpace_no_space :
    ∀ l : List Char, (' ' ∉ l) → splitOnSpace l = [l] := by
  intro l
  induction l with
  | nil => intro _; rfl
  | cons c rest ih =>
    intro hmem
    have hc : ¬ c = ' ' := fun he => hmem (by simp [he])
    have hrest : ' ' ∉ rest := fun hr => hmem (by simp [hr])
    rw [splitOnSpace, if_neg hc, ih hrest]

/-- `split(' ')` after appending a space and more input splits at that
space. -/
lemma splitOnSpace_append_space :
    ∀ (a l : List Char), (' ' ∉ a) →
      splitOnSpace (a ++ ' ' :: l) = a :: splitOnSpace l := by
  intro a
  induction a with
  | nil =>
    intro l _
    rw [List.nil_append, splitOnSpace, if_pos rfl]
  | cons c rest ih =>
    intro l hmem
    have hc : ¬ c = ' ' := fun he => hmem (by simp [he])
    have hrest : ' ' ∉ rest := fun hr => hmem (by simp [hr])
    rw [List.cons_append, splitOnSpace, if_neg hc, ih l hrest]

/-- `split(' ')` inverts the single-space join of space-free tokens. -/
lemma splitOnSpace_spaceJoin :
    ∀ ts : List (List Char), ts ≠ [] → (∀ a ∈ ts, ' ' ∉ a) →
      splitOnSpace (spaceJoin ts) = ts := by
  intro ts
  induction ts with
  | nil => intro h; exact absurd rfl h
  | cons a rest ih =>
    intro _ htok
    cases rest with
    | nil =>
      rw [show spaceJoin [a] = a from rfl]
      exact splitOnSpace_no_space a (htok a (by simp))
    | cons b rest' =>
      rw [show spaceJoin (a :: b :: rest') = a ++ ' ' :: spaceJoin (b :: rest')
          from rfl]
      rw [splitOnSpace_append_space a _ (htok a (by simp))]
      rw [ih (by simp) (fun x hx => htok x (by simp [hx]))]

/-- Characters of a joined token list are spaces or token characters. -/
lemma mem_spaceJoin :
    ∀ (ts : List (List Char)) (c : Char), c ∈ spaceJoin ts →
      c = ' ' ∨ ∃ a ∈ ts, c ∈ a := by
  intro ts
  induction ts with
  | nil => intro c hc; cases hc
  | cons a rest ih =>
    intro c hc
    cases rest with
    | nil =>
      rw [show spaceJoin [a] = a from rfl] at hc
      exact Or.inr ⟨a, by simp, hc⟩
    | cons b rest' =>
      rw [show spaceJoin (a :: b :: rest') = a ++ ' ' :: spaceJoin (b :: rest')
          from rfl] at hc
      rcases List.mem_append.mp hc with ha | htail
      · exact Or.inr ⟨a, by simp, ha⟩
      · rcases List.mem_cons.mp htail with rfl | hj
        · exact Or.inl rfl
        · rcases ih c hj with hsp | ⟨x, hx, hcx⟩
          · exact Or.inl hsp
          · exact Or.inr ⟨x, by simp [hx], hcx⟩

lemma spaceJoin_head (args : List String) (hargs : args ≠ [])
    (htok : ∀ a ∈ args, validToken a) :
    ∃ c J', spaceJoin (args.map String.data) = c :: J' ∧
      isJsSpace c = false := by
  cases args with
  | nil => exact absurd rfl hargs
  | cons a rest =>
    obtain ⟨hne, hforall⟩ := htok a (by simp)
    cases ha : a.data with
    | nil => exact absurd ha hne
    | cons c cs =>
      have hc := (hforall c (by simp [ha])).1
      cases rest with
      | nil =>
        exact ⟨c, cs, by simp [spaceJoin, ha], hc⟩
      | cons b rest' =>
        refine ⟨c, cs ++ ' ' :: spaceJoin ((b :: rest').map String.data),
          ?_, hc⟩
        rw [List.map_cons, List.map_cons,
          show spaceJoin (a.data :: b.data :: rest'.map String.data) =
            a.data ++ ' ' :: spaceJoin (b.data :: rest'.map String.data)
            from rfl,
          ha, List.cons_append]

lemma spaceJoin_no_bracket (args : List String)
    (htok : ∀ a ∈ args, validToken a) :
    ∀ c ∈ spaceJoin (args.map String.data), isNotCloseBracket c = true := by
  intro c hc
  rcases mem_spaceJoin _ c hc with rfl | ⟨x, hx, hcx⟩
  · decide
  · rcases List.mem_map.mp hx with ⟨a, ha, rfl⟩
    have := (htok a ha).2 c hcx
    simp [isNotCloseBracket, this.2]

lemma matchDirectiveAt_build (t : String) (args : List String)
    (ht : ¬ t.data = []) (htw : ∀ c ∈ t.data, isWordChar c = true)
    (hargs : args ≠ []) (htok : ∀ a ∈ args, validToken a) :
    matchDirectiveAt ('[' :: (t.data ++ ' ' ::
        (spaceJoin (args.map String.data) ++ [']']))) =
      some (t, some (String.mk (spaceJoin (args.map String.data))), []) := by
  obtain ⟨c₀, J', hJ, hc₀⟩ := spaceJoin_head args hargs htok
  have hnb := spaceJoin_no_bracket args htok
  set J := spaceJoin (args.map String.data) with hJdef
  have hw : (t.data ++ ' ' :: (J ++ [']'])).takeWhile isWordChar = t.data :=
    takeWhile_append_stop t.data ' ' (J ++ [']']) htw rfl
  have hdrop : (t.data ++ ' ' :: (J ++ [']'])).drop t.data.length =
      ' ' :: (J ++ [']']) := List.drop_left t.data _
  have hM : (' ' :: (J ++ [']'])).takeWhile isNotCloseBracket = ' ' :: J := by
    rw [show ' ' :: (J ++ [']']) = (' ' :: J) ++ ']' :: [] by simp]
    refine takeWhile_append_stop (' ' :: J) ']' [] ?_ (by decide)
    intro c hcmem
    rcases List.mem_cons.mp hcmem with rfl | hcj
    · decide
    · exact hnb c hcj
  have hlenM : (' ' :: J).length = J.length + 1 := by simp
  have hJne : J ≠ [] := by rw [hJ]; exact List.cons_ne_nil _ _
  have hJlen : 1 ≤ J.length := List.length_pos.mpr hJne
  have hdropM : (' ' :: (J ++ [']'])).drop (' ' :: J).length = [']'] := by
    rw [show ' ' :: (J ++ [']']) = (' ' :: J) ++ [']'] by simp]
    exact List.drop_left _ _
  have htwJ : J.takeWhile isJsSpace = [] := by
    rw [hJ, List.takeWhile_cons, hc₀]
    rfl
  simp only [matchDirectiveAt, if_pos rfl, hw, if_neg ht, hdrop]
  simp only [show isJsSpace ' ' = true from rfl, if_true, hM, hdropM]
  rw [if_pos (by simpa [hlenM] using by omega : (' ' :: J).length ≥ 2)]
  simp only [List.takeWhile_cons, show isJsSpace ' ' = true from rfl,
    if_true, htwJ, hlenM]
  rw [show [' '].length = 1 from rfl]
  rw [if_pos (by omega : 1 < J.length + 1)]
  simp [stringMk_data]

lemma scanDirectives_nil : ∀ fuel, scanDirectives fuel [] = [] := by
  intro fuel
  cases fuel <;> rfl

lemma buildDirective_data (t : String) (args : List String) :
    (buildDirective t args).data =
      '[' :: (t.data ++ ' ' :: (spaceJoin (args.map String.data) ++ [']'])) := by
  have h1 : ("[" : String).data = ['['] := rfl
  have h2 : (" " : String).data = [' '] := rfl
  have h3 : ("]" : String).data = [']'] := rfl
  simp [buildDirective, String.data_append, h1, h2, h3]

lemma token_no_space {a : String} (hv : validToken a) : ' ' ∉ a.data := by
  intro hmem
  have := (hv.2 ' ' hmem).1
  simp [isJsSpace] at this

lemma parseMapCommands_build (t : String) (args : List String)
    (hvalid : isValidCommandType t = true)
    (ht : ¬ t.data = []) (htw : ∀ c ∈ t.data, isWordChar c = true)
    (hargs : args ≠ []) (htok : ∀ a ∈ args, validToken a) :
    parseMapCommands (buildDirective t args) = [⟨t, args⟩] := by
  obtain ⟨c₀, J', hJ, hc₀⟩ := spaceJoin_head args hargs htok
  have hdata := buildDirective_data t args
  have hJne : spaceJoin (args.map String.data) ≠ [] := by
    rw [hJ]
    exact List.cons_ne_nil _ _
  rw [parseMapCommands, hdata]
  rw [show ('[' :: (t.data ++ ' ' ::
      (spaceJoin (args.map String.data) ++ [']']))).length =
      (t.data ++ ' ' :: (spaceJoin (args.map String.data) ++ [']'])).length + 1
    from rfl]
  rw [scanDirectives]
  simp only [matchDirectiveAt_build t args ht htw hargs htok,
    scanDirectives_nil]
  simp only [List.filterMap_cons, List.filterMap_nil]
  rw [if_pos hvalid]
  have hmkne : ¬ String.mk (spaceJoin (args.map String.data)) = "" := by
    intro h
    exact hJne (congrArg String.data h)
  rw [splitArgs, if_neg hmkne]
  rw [show (String.mk (spaceJoin (args.map String.data))).data =
      spaceJoin (args.map String.data) from rfl]
  rw [splitOnSpace_spaceJoin (args.map String.data)
    (by simpa using hargs)
    (by
      intro x hx
      rcases List.mem_map.mp hx with ⟨a, ha, rfl⟩
      exact token_no_space (htok a ha))]
  rw [List.map_map]
  have hmapid : args.map (fun a => jsTrim (String.mk a.data)) = args := by
    rw [List.map_congr_left (fun a ha => ?_), List.map_id]
    rw [stringMk_data]
    exact jsTrim_eq_self (fun c hc => ((htok a ha).2 c hc).1)
  rw [show (fun cs => jsTrim (String.mk cs)) ∘ String.data =
      fun a => jsTrim (String.mk a.data) from rfl]
  rw [hmapid]

/-- C2: for every directive string built from a recognized command type and
valid argument tokens, parsing reconstructs the command with the same type
and argument values; in particular `"[zoom_to 51.5081 -0.0759 15]"` yields
exactly one `zoom_to` command with coordinates `[51.5081, -0.0759]` and
zoom `15`. -/
theorem parse_directive_round_trip :
    (∀ (t : String) (args : List String),
       isValidCommandType t = true → ¬ t.data = [] →
       (∀ c ∈ t.data, isWordChar c = true) →
       args ≠ [] → (∀ a ∈ args, validToken a) →
       parseMapCommands (buildDirective t args) = [⟨t, args⟩] ∧
       ∀ c, convertToMapCommand ⟨t, args⟩ = some c →
         extractMapCommands (buildDirective t args) = [c]) ∧
    extractMapCommands "[zoom_to 51.5081 -0.0759 15]" = [c1ZoomCommand] := by
  constructor
  · intro t args hvalid ht htw hargs htok
    have hp := parseMapCommands_build t args hvalid ht htw hargs htok
    refine ⟨hp, fun c hc => ?_⟩
    rw [extractMapCommands, hp]
    simp [hc]
  · rfl

/-- Witness for C2 at the `zoom_to` directive of the spec example. -/
theorem parse_directive_round_trip_witness :
    parseMapCommands (buildDirective "zoom_to" ["51.5081", "-0.0759", "15"]) =
      [⟨"zoom_to", ["51.5081", "-0.0759", "15"]⟩] ∧
    extractMapCommands (buildDirective "zoom_to" ["51.5081", "-0.0759", "15"]) =
      [c1ZoomCommand] := by
  have h := parse_directive_round_trip.1 "zoom_to" ["51.5081", "-0.0759", "15"]
    (by decide) (by decide) (by decide) (by decide) (by decide)
  exact ⟨h.1, h.2 c1ZoomCommand rfl⟩

end MapChat
